import Mathlib

/-!
Verification of the klc-install registry core: a shallow embedding of
`src/registry_value.rs` (value codec), `src/registry_key.rs` (registry key
handles) and the allocator procedures of `src/main.rs`
(`get_next_layout_key`, `get_next_layout_id`), together with theorems
checking the specification's claims against these definitions.

Modelling conventions:
- Rust `String`/`&str` is modelled as `List Char` (`RStr`); Lean `Char` is a
  Unicode scalar value exactly as Rust `char`.
- Machine integers (`u8`, `u16`, `u32`, `u64`) are modelled as `Nat` with
  explicit `% 2^w` at the places where the Rust code can overflow or
  truncate.
- The Windows registry (the process-external store) is modelled as a tree of
  nodes (`RegNode`) holding typed values (name, type code, raw bytes) and
  named children; the five well-known roots form a `Registry`.  Name lookups
  are ASCII-case-insensitive as in the real registry.  Failure modes that
  depend on security descriptors (`AccessDenied`) or transient OS errors are
  not produced by the model store; the error *handling* code of the embedded
  functions is nevertheless translated in full.
- An OS handle (`HKEY`) is a number.  Opening a key consumes a caller-chosen
  fresh handle value `h : Nat`, standing for the OS's unconstrained choice of
  fresh handle; theorems never depend on the value.  The five roots carry
  their fixed well-known handle constants.
- Rust panics (slice index out of bounds, `.unwrap()` on `Err`) are modelled
  explicitly with the `RunResult.panic` constructor, never collapsed into
  ordinary errors.
-/

instance {ε α : Type} [DecidableEq ε] [DecidableEq α] : DecidableEq (Except ε α) := fun
  | .ok a, .ok b =>
    if h : a = b then .isTrue (by rw [h])
    else .isFalse (by intro hh; cases hh; exact h rfl)
  | .ok _, .error _ => .isFalse (by intro h; cases h)
  | .error _, .ok _ => .isFalse (by intro h; cases h)
  | .error e, .error f =>
    if h : e = f then .isTrue (by rw [h])
    else .isFalse (by intro hh; cases hh; exact h rfl)

/-- Rust strings are modelled as lists of Unicode scalar values. -/
abbrev RStr := List Char

/-- Coerce a Lean string literal to the model string type. -/
def str (s : String) : RStr := s.data

/-! ## ASCII case folding (`str::eq_ignore_ascii_case`, `str::to_uppercase`) -/

/-- `u8::to_ascii_lowercase` lifted to chars: maps `A`..`Z` to `a`..`z`. -/
def asciiLower (c : Char) : Char :=
  if 'A' ≤ c ∧ c ≤ 'Z' then Char.ofNat (c.toNat + 32) else c

/-- `u8::to_ascii_uppercase` lifted to chars: maps `a`..`z` to `A`..`Z`.
`get_root_from_name` calls Rust `to_uppercase`, whose full Unicode mapping
coincides with the ASCII mapping on every root name it compares against. -/
def asciiUpper (c : Char) : Char :=
  if 'a' ≤ c ∧ c ≤ 'z' then Char.ofNat (c.toNat - 32) else c

/-- `str::eq_ignore_ascii_case`: equality after ASCII lowercasing. -/
def eqIgnoreAsciiCase (a b : RStr) : Bool :=
  a.map asciiLower == b.map asciiLower

/-! ## Byte/code-unit reinterpretation (`utils::ToU16Slice::to_u16_slice`)

`to_u16_slice` reinterprets a `Vec<u8>` of length `n` as a `&[u16]` of length
`n / 2` in native (little-endian) byte order; a trailing odd byte is dropped.
The `% 256` below records that the buffer elements have type `u8`. -/

def bytesToU16 : List Nat → List Nat
  | b0 :: b1 :: rest => (b0 % 256 + (b1 % 256) * 256) :: bytesToU16 rest
  | _ => []

/-- The byte-serialisation loop of `RegistryValueData::to_raw` for strings:
each code unit `c` is pushed as `(c & 0xFF) as u8` then `(c >> 8) as u8`. -/
def u16sToBytes (us : List Nat) : List Nat :=
  us.flatMap (fun u => [u % 256, (u / 256) % 256])

/-! ## UTF-16 encoding and decoding

`str::encode_utf16` (used by `to_raw`), `String::from_utf16_lossy` (used by
the `REG_MULTI_SZ` and `REG_EXPAND_SZ` decode paths) and the strict decoding
done by `U16CString::to_string` (used by the `REG_SZ` decode path). -/

/-- UTF-16 code units of one scalar value (`char::encode_utf16`). -/
def encodeUtf16Char (c : Char) : List Nat :=
  let v := c.toNat
  if v < 0x10000 then [v]
  else [0xD800 + (v - 0x10000) / 0x400, 0xDC00 + (v - 0x10000) % 0x400]

/-- `str::encode_utf16`: concatenated code units of all chars. -/
def encodeUtf16 (s : RStr) : List Nat :=
  s.flatMap encodeUtf16Char

/-- The Unicode replacement character U+FFFD. -/
def replacementChar : Char := Char.ofNat 0xFFFD

/-- `String::from_utf16_lossy`: lone or ill-formed surrogates become U+FFFD. -/
def decodeUtf16Lossy : List Nat → List Char
  | [] => []
  | [u] =>
    if u < 0xD800 ∨ 0xE000 ≤ u then [Char.ofNat u] else [replacementChar]
  | u :: v :: rest =>
    if u < 0xD800 ∨ 0xE000 ≤ u then Char.ofNat u :: decodeUtf16Lossy (v :: rest)
    else if u < 0xDC00 then
      if 0xDC00 ≤ v ∧ v < 0xE000 then
        Char.ofNat (0x10000 + (u - 0xD800) * 0x400 + (v - 0xDC00)) ::
          decodeUtf16Lossy rest
      else replacementChar :: decodeUtf16Lossy (v :: rest)
    else replacementChar :: decodeUtf16Lossy (v :: rest)

/-- Strict UTF-16 decoding (`U16CString::to_string`): fails on lone or
ill-formed surrogates instead of substituting U+FFFD. -/
def decodeUtf16Strict : List Nat → Option (List Char)
  | [] => some []
  | [u] =>
    if u < 0xD800 ∨ 0xE000 ≤ u then some [Char.ofNat u] else none
  | u :: v :: rest =>
    if u < 0xD800 ∨ 0xE000 ≤ u then
      (decodeUtf16Strict (v :: rest)).map (Char.ofNat u :: ·)
    else if u < 0xDC00 then
      if 0xDC00 ≤ v ∧ v < 0xE000 then
        (decodeUtf16Strict rest).map
          (Char.ofNat (0x10000 + (u - 0xD800) * 0x400 + (v - 0xDC00)) :: ·)
      else none
    else none

/-! ## Value codec (`src/registry_value.rs`) -/

/-- `RegistryValueData` (the typed payload variants). -/
inductive RegistryValueData where
  | None : RegistryValueData
  | Binary : List Nat → RegistryValueData
  | Dword : Nat → RegistryValueData
  | Qword : Nat → RegistryValueData
  | String : RStr → RegistryValueData
  | MultiString : List RStr → RegistryValueData
  | ExpandString : RStr → RegistryValueData
  deriving DecidableEq, Repr

/-- The `REG_MULTI_SZ` splitting loop of `RegistryValueData::from_data`:
`while i < len { scan j to the next zero unit; push units[i..j]; i = j + 1 }`.
The loop emits the unit run before every zero unit it encounters (including
the run before the final list terminator, which for a well-formed buffer is
the empty run between the last string's terminator and the list terminator)
plus a nonempty trailing run if the buffer ends without a zero.  This
structural recursion computes exactly that: at a zero unit it closes the
current (possibly empty) run, and a nonzero unit is prepended to the next
run (opening one if the loop would still enter, i.e. when `i < len`). -/
def multiSzSplit : List Nat → List (List Nat)
  | [] => []
  | u :: rest =>
    if u = 0 then [] :: multiSzSplit rest
    else
      match multiSzSplit rest with
      | [] => [[u]]
      | s :: ss => (u :: s) :: ss

/-- Registry value type codes (`windows::Win32::System::Registry`):
`REG_NONE = 0`, `REG_SZ = 1`, `REG_EXPAND_SZ = 2`, `REG_BINARY = 3`,
`REG_DWORD_LITTLE_ENDIAN = 4`, `REG_DWORD_BIG_ENDIAN = 5`,
`REG_MULTI_SZ = 7`, `REG_QWORD_LITTLE_ENDIAN = 11`. -/
def REG_NONE : Nat := 0
def REG_SZ : Nat := 1
def REG_EXPAND_SZ : Nat := 2
def REG_BINARY : Nat := 3
def REG_DWORD_LITTLE_ENDIAN : Nat := 4
def REG_DWORD_BIG_ENDIAN : Nat := 5
def REG_MULTI_SZ : Nat := 7
def REG_QWORD_LITTLE_ENDIAN : Nat := 11

/-- `RegistryValueData::from_data`: decode a type code plus raw bytes into a
typed value.  Error strings are those of the source. -/
def RegistryValueData.from_data (type_code : Nat) (data : List Nat) :
    Except RStr RegistryValueData :=
  if type_code = REG_NONE then .ok .None
  else if type_code = REG_BINARY then .ok (.Binary data)
  else if type_code = REG_DWORD_LITTLE_ENDIAN then
    if data.length ≠ 4 then
      .error (str "Invalid data length for REG_DWORD_LITTLE_ENDIAN!")
    else
      .ok (.Dword (data.getD 0 0 % 256 + (data.getD 1 0 % 256) * 256 +
        (data.getD 2 0 % 256) * 65536 + (data.getD 3 0 % 256) * 16777216))
  else if type_code = REG_DWORD_BIG_ENDIAN then
    if data.length ≠ 4 then
      .error (str "Invalid data length for REG_DWORD_BIG_ENDIAN!")
    else
      .ok (.Dword (data.getD 3 0 % 256 + (data.getD 2 0 % 256) * 256 +
        (data.getD 1 0 % 256) * 65536 + (data.getD 0 0 % 256) * 16777216))
  else if type_code = REG_QWORD_LITTLE_ENDIAN then
    if data.length ≠ 8 then
      .error (str "Invalid data length for REG_QWORD_LITTLE_ENDIAN!")
    else
      .ok (.Qword (List.sum ((List.range 8).map
        (fun i => (data.getD i 0 % 256) * 256 ^ i))))
  else if type_code = REG_SZ then
    match decodeUtf16Strict ((bytesToU16 data).takeWhile (fun u => u ≠ 0)) with
    | some s => .ok (.String s)
    | none => .error (str "Failed to convert UTF-16 data to string!")
  else if type_code = REG_MULTI_SZ then
    .ok (.MultiString ((multiSzSplit (bytesToU16 data)).map decodeUtf16Lossy))
  else if type_code = REG_EXPAND_SZ then
    .ok (.ExpandString (decodeUtf16Lossy (bytesToU16 data)))
  else
    .error (str "Unsupported registry value type " ++ (Nat.repr type_code).data
      ++ str "!")

/-- `u32::to_le_bytes` / `u64::to_le_bytes` for a `w`-byte integer. -/
def intLeBytes (w : Nat) (n : Nat) : List Nat :=
  (List.range w).map (fun i => (n / 256 ^ i) % 256)

/-- `RegistryValueData::to_raw`: encode a typed value into a type code plus
raw bytes. -/
def RegistryValueData.to_raw : RegistryValueData → Nat × List Nat
  | .None => (REG_NONE, [])
  | .Binary data => (REG_BINARY, data)
  | .Dword dword => (REG_DWORD_LITTLE_ENDIAN, intLeBytes 4 dword)
  | .Qword qword => (REG_QWORD_LITTLE_ENDIAN, intLeBytes 8 qword)
  | .String s => (REG_SZ, u16sToBytes (encodeUtf16 s ++ [0]))
  | .MultiString ss =>
    (REG_MULTI_SZ,
      u16sToBytes ((ss.flatMap (fun s => encodeUtf16 s ++ [0])) ++ [0]))
  | .ExpandString s => (REG_EXPAND_SZ, u16sToBytes (encodeUtf16 s ++ [0]))

/-- Decode the encoding of a value: the codec round trip. -/
def codecRoundTrip (v : RegistryValueData) : Except RStr RegistryValueData :=
  RegistryValueData.from_data v.to_raw.1 v.to_raw.2

/-! ## Registry key handles (`src/registry_key.rs`) -/

/-- `RegistryError` (`src/registry_key.rs`).  `Win32` carries the native
error code; `Other` carries a message string. -/
inductive RegistryError where
  | NotFound : RegistryError
  | AccessDenied : RegistryError
  | Win32 : Nat → RegistryError
  | Other : RStr → RegistryError
  deriving DecidableEq, Repr

/-- The `Display` implementation of `RegistryError` (used by the allocator's
`map_err(|e| e.to_string())`). -/
def RegistryError.toRString : RegistryError → RStr
  | .NotFound => str "Registry key or value not found!"
  | .AccessDenied => str "Access denied!"
  | .Win32 e => str "Win32 error: " ++ (Nat.repr e).data
  | .Other e => str "Error: " ++ e

/-- A node of the OS registry tree: named typed values (a `none` name is the
key's unnamed/default value) plus named child keys. -/
inductive RegNode where
  | node : List (Option RStr × Nat × List Nat) → List (RStr × RegNode) → RegNode

/-- The values attached to a registry node. -/
def RegNode.values : RegNode → List (Option RStr × Nat × List Nat)
  | .node vs _ => vs

/-- The child keys of a registry node. -/
def RegNode.children : RegNode → List (RStr × RegNode)
  | .node _ cs => cs

/-- Case-insensitive child lookup, as performed by `RegOpenKeyExW` for one
path component. -/
def lookupChild (n : RegNode) (name : RStr) : Option RegNode :=
  (n.children.find? (fun c => eqIgnoreAsciiCase c.1 name)).map Prod.snd

/-- Resolve a backslash-separated subpath component by component, as
`RegOpenKeyExW` does for a multi-component subkey argument. -/
def openSegs : RegNode → List RStr → Option RegNode
  | n, [] => some n
  | n, s :: rest =>
    match lookupChild n s with
    | some c => openSegs c rest
    | none => none

/-- `str::split` on the backslash separator (all occurrences). -/
def splitOnBack (s : RStr) : List RStr :=
  match s with
  | [] => [[]]
  | c :: rest =>
    let tail := splitOnBack rest
    if c = '\\' then [] :: tail
    else
      match tail with
      | t :: ts => (c :: t) :: ts
      | [] => [[c]]

/-- `str::split_once("\\")`: split at the first backslash, or `none` when the
string contains no backslash. -/
def splitOnceBack (s : RStr) : Option (RStr × RStr) :=
  match s with
  | [] => none
  | c :: rest =>
    if c = '\\' then some ([], rest)
    else (splitOnceBack rest).map (fun p => (c :: p.1, p.2))

/-- `str::rfind("\\")`: index of the last backslash, if any. -/
def rfindBack (s : RStr) : Option Nat :=
  match s with
  | [] => none
  | c :: rest =>
    match rfindBack rest with
    | some i => some (i + 1)
    | none => if c = '\\' then some 0 else none

/-- The five process-wide root trees of the modelled store. -/
structure Registry where
  hklm : RegNode
  hkcc : RegNode
  hkcr : RegNode
  hkcu : RegNode
  hku : RegNode

/-- `RegistryKey`: an open handle (`hkey`), the node the handle references
(the model's denotation of the OS handle; the source holds the raw `HKEY`
instead and the key's value/child state lives in the OS), and the logical
path string used for identity and navigation. -/
structure RegistryKey where
  hkey : Nat
  node : RegNode
  path : RStr

/-- `RegistryKey::is_root_key`: a root is a path without separator. -/
def RegistryKey.is_root_key (k : RegistryKey) : Bool :=
  ¬ ('\\' ∈ k.path)

/-- `RegistryKey::get_name`: the last backslash-separated path segment. -/
def RegistryKey.get_name (k : RegistryKey) : RStr :=
  (splitOnBack k.path).getLastD []

/-- The `PartialEq` implementation: same underlying handle, or
case-insensitively equal paths. -/
def regKeyEq (a b : RegistryKey) : Bool :=
  (a.hkey == b.hkey) || eqIgnoreAsciiCase a.path b.path

/-- The well-known root handle constants (`winreg.h`). -/
def HKEY_CLASSES_ROOT : Nat := 0x80000000
def HKEY_CURRENT_USER : Nat := 0x80000001
def HKEY_LOCAL_MACHINE : Nat := 0x80000002
def HKEY_USERS : Nat := 0x80000003
def HKEY_CURRENT_CONFIG : Nat := 0x80000005

/-- `RegistryKey::local_machine` and the other four root constructors. -/
def Registry.local_machine (reg : Registry) : RegistryKey :=
  ⟨HKEY_LOCAL_MACHINE, reg.hklm, str "HKEY_LOCAL_MACHINE"⟩

def Registry.current_config (reg : Registry) : RegistryKey :=
  ⟨HKEY_CURRENT_CONFIG, reg.hkcc, str "HKEY_CURRENT_CONFIG"⟩

def Registry.classes_root (reg : Registry) : RegistryKey :=
  ⟨HKEY_CLASSES_ROOT, reg.hkcr, str "HKEY_CLASSES_ROOT"⟩

def Registry.current_user (reg : Registry) : RegistryKey :=
  ⟨HKEY_CURRENT_USER, reg.hkcu, str "HKEY_CURRENT_USER"⟩

def Registry.users (reg : Registry) : RegistryKey :=
  ⟨HKEY_USERS, reg.hku, str "HKEY_USERS"⟩

/-- `RegistryKey::get_root_from_name`: canonical or abbreviated root name to
root key; unknown names fail with the `Other` (invalid-name) error. -/
def get_root_from_name (reg : Registry) (name : RStr) :
    Except RegistryError RegistryKey :=
  let up := name.map asciiUpper
  if up = str "HKEY_LOCAL_MACHINE" ∨ up = str "HKLM" then
    .ok reg.local_machine
  else if up = str "HKEY_CURRENT_CONFIG" ∨ up = str "HKCC" then
    .ok reg.current_config
  else if up = str "HKEY_CLASSES_ROOT" ∨ up = str "HKCR" then
    .ok reg.classes_root
  else if up = str "HKEY_CURRENT_USER" ∨ up = str "HKCU" then
    .ok reg.current_user
  else if up = str "HKEY_USERS" ∨ up = str "HKU" then
    .ok reg.users
  else
    .error (.Other (str "Invalid root key name: " ++ name))

/-- `RegistryKey::get_subkey`: open an existing child (or deeper subpath) of
`k` for full access.  `h` is the fresh OS handle returned by a successful
`RegOpenKeyExW`.  A name containing an interior NUL fails `U16CString`
conversion first (the source appends the converter's message); an absent
child fails with `NotFound` (`ERROR_FILE_NOT_FOUND`). -/
def RegistryKey.get_subkey (k : RegistryKey) (name : RStr) (h : Nat) :
    Except RegistryError RegistryKey :=
  if 0 ∈ name.map Char.toNat then
    .error (.Other (str "Couldn't convert string to UTF16!"))
  else
    match openSegs k.node (splitOnBack name) with
    | none => .error .NotFound
    | some n => .ok ⟨h, n, k.path ++ '\\' :: name⟩

/-- `RegistryKey::from_path`: split at the first separator into root name and
subpath; a separator-free path names a root; otherwise resolve the root and
open the whole remaining subpath as its subkey. -/
def Registry.from_path (reg : Registry) (path : RStr) (h : Nat) :
    Except RegistryError RegistryKey :=
  match splitOnceBack path with
  | none => get_root_from_name reg path
  | some (root_name, subkey_name) =>
    match get_root_from_name reg root_name with
    | .error e => .error e
    | .ok root => root.get_subkey subkey_name h

/-- `RegistryKey::get_parent`: roots fail with the invalid-operation error;
otherwise re-resolve the path truncated at its last separator. -/
def RegistryKey.get_parent (reg : Registry) (k : RegistryKey) (h : Nat) :
    Except RegistryError RegistryKey :=
  if k.is_root_key then
    .error (.Other (str "Root keys have no parents!"))
  else
    match rfindBack k.path with
    | none => .error (.Other (str "Error getting parent of key " ++ k.path))
    | some i => reg.from_path (k.path.take i) h

/-- Value-name matching for `RegGetValueW` (case-insensitive, as the real
registry compares value names; `none` addresses the default value). -/
def valueNameMatches (entry target : Option RStr) : Bool :=
  match entry, target with
  | none, none => true
  | some a, some b => eqIgnoreAsciiCase a b
  | _, _ => false

/-- `RegistryKey::get_value`: the two-phase sized read.  The model store does
not change between the probe and the read, so the two `RegGetValueW` calls
collapse into one lookup; an absent value is `ERROR_FILE_NOT_FOUND` i.e.
`NotFound`, and a decode failure of `RegistryValueData::from_data` is wrapped
in `RegistryError::Other`.  The source returns a `RegistryValue` carrying a
key back-reference and the value name; the claims only concern the payload,
so the model returns the `RegistryValueData` payload. -/
def RegistryKey.get_value (k : RegistryKey) (name : Option RStr) :
    Except RegistryError RegistryValueData :=
  match k.node.values.find? (fun e => valueNameMatches e.1 name) with
  | none => .error .NotFound
  | some e =>
    match RegistryValueData.from_data e.2.1 e.2.2 with
    | .ok v => .ok v
    | .error msg => .error (.Other msg)

/-- `RegistryKey::try_get_value`: map `NotFound` to `Ok(None)`, propagate any
other failure unchanged, wrap success in `Some`. -/
def RegistryKey.try_get_value (k : RegistryKey) (name : Option RStr) :
    Except RegistryError (Option RegistryValueData) :=
  match k.get_value name with
  | .error err => if err = RegistryError.NotFound then .ok none else .error err
  | .ok v => .ok (some v)

/-- `RegistryKey::iter_children_names`: the lazy child-name enumeration,
which yields the stored child names in order (the model's name buffers always
decode, so no per-item errors arise here). -/
def RegistryKey.iter_children_names (k : RegistryKey) : List RStr :=
  k.node.children.map Prod.fst

/-- `RegistryKey::iter_children`: maps each enumerated name through
`get_subkey`, yielding one `Result` per child.  The allocator consumes the
keys without comparing handles, so the model passes the dummy fresh handle
`0` for every open. -/
def RegistryKey.iter_children (k : RegistryKey) :
    List (Except RegistryError RegistryKey) :=
  k.iter_children_names.map (fun n => k.get_subkey n 0)

/-! ## Identifier allocator (`src/main.rs`) -/

/-- An outcome of running a fallible Rust function that can also panic:
`ok` a value, `err` the function's `Err(String)`, or `panic` (index out of
bounds, `.unwrap()` on an error).  Panic messages are stable model labels,
not the full Rust panic payloads. -/
inductive RunResult (α : Type) where
  | ok : α → RunResult α
  | err : RStr → RunResult α
  | panic : RStr → RunResult α
  deriving DecidableEq, Repr

/-- A hexadecimal digit character, lowercase (`core::fmt` `{:x}`). -/
def hexDigitChar (n : Nat) : Char :=
  if n < 10 then Char.ofNat (48 + n) else Char.ofNat (87 + n)

/-- `format!("{:08x}", id)` for a `u32`: eight lowercase hex digits,
zero-padded (a `u32` never needs more than eight). -/
def toHex8 (n : Nat) : RStr :=
  (List.range 8).reverse.map (fun i => hexDigitChar ((n / 16 ^ i) % 16))

/-- `get_layouts_key`: resolve the well-known layout container path. -/
def get_layouts_key (reg : Registry) : Except RegistryError RegistryKey :=
  reg.from_path
    (str "HKLM\\SYSTEM\\CurrentControlSet\\Control\\Keyboard Layouts") 0

/-- The probe loop of `get_next_layout_key`.  `fuel` bounds the number of
iterations the model unfolds (the source loop has no such bound and need not
terminate); `none` means the bound was reached.  Each iteration formats the
candidate, probes it as a child of the layout container, returns it if the
probe says `NotFound`, propagates any other probe error, and otherwise
checks `id | 0xffff0000 == 0xffff0000` (the source expression, which by
precedence is `(id | 0xffff0000) == 0xffff0000`) before advancing by
`0x000f0000` with `u32` wraparound. -/
def next_layout_key_loop (layouts : RegistryKey) :
    Nat → Nat → Option (Except RStr RStr)
  | _, 0 => none
  | id, fuel + 1 =>
    let id_str := toHex8 id
    match layouts.get_subkey id_str 0 with
    | .error RegistryError.NotFound => some (.ok id_str)
    | .error e => some (.error e.toRString)
    | .ok _ =>
      if (id ||| 0xffff0000) = 0xffff0000 then
        some (.error (str "No more layout keys for this locale are available."))
      else
        next_layout_key_loop layouts ((id + 0x000f0000) % 4294967296) fuel

/-- `get_next_layout_key`: open the layout container and run the probe loop
from candidate `0xf0000000 | locale_id` (`locale_id` is a `u16`, hence the
`% 65536` ingress bound). -/
def get_next_layout_key (reg : Registry) (locale_id : Nat) (fuel : Nat) :
    Option (Except RStr RStr) :=
  match get_layouts_key reg with
  | .error e => some (.error e.toRString)
  | .ok layouts =>
    next_layout_key_loop layouts (0xf0000000 ||| locale_id % 65536) fuel

/-- Modelled from the spec: `RegistryValue::unwrap_str` is called by
`get_next_layout_id` but its definition is not under `src/`; per the spec the
allocator reads each child's "Layout Id" named value as text before parsing
it as a 16-bit hexadecimal integer, so `unwrap_str` extracts the text payload
of a string-typed value and (being an `unwrap`) panics on any other
variant. -/
def unwrap_str : RegistryValueData → RunResult RStr
  | .String s => .ok s
  | _ => .panic (str "unwrap_str: not a string value")

/-- `u16::from_str_radix(s, 16)`: an optional leading `+`, then one or more
hex digits (either case); the source accumulates with overflow checks, and
since the accumulator grows monotonically that is equivalent to the final
bound check `< 0x10000` used here. -/
def from_str_radix16_u16 (s : RStr) : Option Nat :=
  let digits := match s with
    | '+' :: rest => rest
    | other => other
  if digits = [] then none
  else
    (digits.foldl
      (fun acc c =>
        acc.bind (fun a =>
          if '0' ≤ c ∧ c ≤ '9' then some (a * 16 + (c.toNat - 48))
          else if 'a' ≤ c ∧ c ≤ 'f' then some (a * 16 + (c.toNat - 87))
          else if 'A' ≤ c ∧ c ≤ 'F' then some (a * 16 + (c.toNat - 55))
          else none))
      (some 0)).bind
      (fun v => if v < 65536 then some v else none)

/-- The `mark_layout_id_used` closure of `get_next_layout_id`: identifiers
below `0x0F00` are skipped; otherwise the marker array is indexed at
`layout_id - 0x0F00` with no upper-bound guard, so an index past the array
length is a Rust index-out-of-bounds panic. -/
def mark_layout_id_used (marks : List Bool) (layout_id : Nat) :
    RunResult (List Bool) :=
  if layout_id < 0x0F00 then .ok marks
  else if layout_id - 0x0F00 < marks.length then
    .ok (marks.set (layout_id - 0x0F00) true)
  else .panic (str "index out of bounds")

/-- One iteration of the child scan of `get_next_layout_id`: open the child
by its enumerated name (`iter_children`), best-effort read its "Layout Id"
value (`try_get_value`), and parse it; open or read failures abort the scan
(`map_err(...)?`), a missing value is skipped, and a parse failure is an
`unwrap` panic. -/
def child_layout_id (layouts : RegistryKey) (name : RStr) :
    RunResult (Option Nat) :=
  match layouts.get_subkey name 0 with
  | .error e => .err e.toRString
  | .ok child =>
    match child.try_get_value (some (str "Layout Id")) with
    | .error e => .err e.toRString
    | .ok none => .ok none
    | .ok (some v) =>
      match unwrap_str v with
      | .ok s =>
        match from_str_radix16_u16 s with
        | some n => .ok (some n)
        | none => .panic (str "from_str_radix unwrap failed")
      | .err e => .err e
      | .panic m => .panic m

/-- The `for layout_err in layout_keys_iter` loop of `get_next_layout_id`:
fold the enumerated children over the marker array. -/
def mark_loop (layouts : RegistryKey) :
    List RStr → List Bool → RunResult (List Bool)
  | [], marks => .ok marks
  | name :: names, marks =>
    match child_layout_id layouts name with
    | .err e => .err e
    | .panic m => .panic m
    | .ok none => mark_loop layouts names marks
    | .ok (some v) =>
      match mark_layout_id_used marks v with
      | .ok marks2 => mark_loop layouts names marks2
      | .err e => .err e
      | .panic m => .panic m

/-- The `check_layout_id_used` closure: read the marker slot
`layout_id - 0x0F00`, again with an unguarded index. -/
def check_layout_id_used (marks : List Bool) (layout_id : Nat) :
    RunResult Bool :=
  if h : layout_id - 0x0F00 < marks.length then
    .ok (marks.get ⟨layout_id - 0x0F00, h⟩)
  else .panic (str "index out of bounds")

/-- The final `for id in 0x0F00..0xF000` linear scan, modelled with the
range's remaining length as the structural counter (`remaining` starts at
`0xF000 - 0x0F00` and `id` at `0x0F00`): return the first unused slot, or
the exhaustion error when the range ends. -/
def scan_loop (marks : List Bool) : Nat → Nat → RunResult Nat
  | 0, _ => .err (str "No more layout IDs are available.")
  | remaining + 1, id =>
    match check_layout_id_used marks id with
    | .ok true => scan_loop marks remaining (id + 1)
    | .ok false => .ok id
    | .err e => .err e
    | .panic m => .panic m

/-- `get_next_layout_id` after the layout container has been opened: allocate
the `[false; 0xF000 - 0x0F00]` marker array, run the child scan, then the
linear scan. -/
def next_layout_id_core (layouts : RegistryKey) : RunResult Nat :=
  match mark_loop layouts layouts.iter_children_names
      (List.replicate (0xF000 - 0x0F00) false) with
  | .ok marks => scan_loop marks (0xF000 - 0x0F00) 0x0F00
  | .err e => .err e
  | .panic m => .panic m

/-- `get_next_layout_id`: open the layout container and run the scan. -/
def get_next_layout_id (reg : Registry) : RunResult Nat :=
  match get_layouts_key reg with
  | .error e => .err e.toRString
  | .ok layouts => next_layout_id_core layouts

/-- The identifiers that the child scan of `get_next_layout_id` successfully
parses from the enumerated children, in enumeration order (children whose
processing fails or that lack a "Layout Id" value contribute nothing). -/
def enumerated_layout_ids_from (layouts : RegistryKey) (names : List RStr) :
    List Nat :=
  names.foldr
    (fun n acc =>
      match child_layout_id layouts n with
      | .ok (some v) => v :: acc
      | _ => acc)
    []

/-- The identifiers recorded among the enumerated children of the layout
container. -/
def enumerated_layout_ids (layouts : RegistryKey) : List Nat :=
  enumerated_layout_ids_from layouts layouts.iter_children_names

/-! ## The spec's iterative path resolution (for the refinement claim C6) -/

/-- Modelled from the spec: "splits the path on the first separator into a
root name and a remaining subpath; resolves the root, then iteratively opens
each subpath segment as a child of the previous result.  Fails with whatever
the first failing step fails with."  This is the spec's description of
`resolve_path`, stated over an explicit segment list; it is compared with
`Registry.from_path` (the source definition) in the C6 theorem. -/
def resolve_path_spec (reg : Registry) (root_name : RStr)
    (segs : List RStr) (h : Nat) : Except RegistryError RegistryKey :=
  match get_root_from_name reg root_name with
  | .error e => .error e
  | .ok root =>
    segs.foldl
      (fun acc seg =>
        match acc with
        | .error e => .error e
        | .ok k => k.get_subkey seg h)
      (.ok root)

/-- `str::join`-style reassembly of a split path: the segments interleaved
with single backslashes (inverse of `splitOnBack` for backslash-free
segments). -/
def intercalateBack : List RStr → RStr
  | [] => []
  | [s] => s
  | s :: rest => s ++ '\\' :: intercalateBack rest

/-! ## Concrete store states used by the theorems -/

/-- The stored byte form of a `REG_SZ` value (UTF-16 code units plus the
two-byte terminator), used to populate concrete store states. -/
def szBytes (s : RStr) : List Nat :=
  u16sToBytes (encodeUtf16 s ++ [0])

/-- A layout child key holding a "Layout Id" string value. -/
def layoutChild (id_str : RStr) : RegNode :=
  .node [(some (str "Layout Id"), REG_SZ, szBytes id_str)] []

/-- An empty registry node. -/
def emptyNode : RegNode := .node [] []

/-- A registry whose `HKLM` root contains only the layout container path
`SYSTEM\CurrentControlSet\Control\Keyboard Layouts` with the given children;
the other four roots are empty. -/
def layoutsRegistry (children : List (RStr × RegNode)) : Registry :=
  { hklm := .node []
      [(str "SYSTEM", .node []
        [(str "CurrentControlSet", .node []
          [(str "Control", .node []
            [(str "Keyboard Layouts", .node [] children)])])])]
    hkcc := emptyNode
    hkcr := emptyNode
    hkcu := emptyNode
    hku := emptyNode }

/-- A registry whose `HKLM` root contains a child `A` with a child `B`
(for the navigation claims); the other four roots are empty. -/
def abRegistry : Registry :=
  { hklm := .node [] [(str "A", .node [] [(str "B", emptyNode)])]
    hkcc := emptyNode
    hkcr := emptyNode
    hkcu := emptyNode
    hku := emptyNode }

/-- Result equivalence for key-producing operations: identical errors, or
success with keys equal under the `PartialEq` identity rule. -/
def exceptKeyEq (x y : Except RegistryError RegistryKey) : Bool :=
  match x, y with
  | .ok a, .ok b => regKeyEq a b
  | .error a, .error b => decide (a = b)
  | _, _ => false

/-- A registry whose layout container holds one child whose "Layout Id"
string is `"f000"` (the reachability input for the out-of-bounds claim). -/
def f000Registry : Registry :=
  layoutsRegistry [(str "f0000409", layoutChild (str "f000"))]

/-- The layout-container key that `get_layouts_key` yields on
`f000Registry`. -/
def f000LayoutsKey : RegistryKey :=
  RegistryKey.mk 0 (.node [] [(str "f0000409", layoutChild (str "f000"))])
    (str "HKEY_LOCAL_MACHINE" ++ '\\' ::
      str "SYSTEM\\CurrentControlSet\\Control\\Keyboard Layouts")

/-- A registry whose layout container children hold the "Layout Id"
identifiers `{0x0F00, 0x0F01, 0x0F03}` (the lowest-free-slot scenario). -/
def idRegistry3 : Registry :=
  layoutsRegistry [(str "0f00", layoutChild (str "0f00")),
    (str "0f01", layoutChild (str "0f01")),
    (str "0f03", layoutChild (str "0f03"))]

/-- The layout-container key that `get_layouts_key` yields on
`idRegistry3`. -/
def idLayoutsKey3 : RegistryKey :=
  RegistryKey.mk 0 (.node [] [(str "0f00", layoutChild (str "0f00")),
    (str "0f01", layoutChild (str "0f01")),
    (str "0f03", layoutChild (str "0f03"))])
    (str "HKEY_LOCAL_MACHINE" ++ '\\' ::
      str "SYSTEM\\CurrentControlSet\\Control\\Keyboard Layouts")


/-! ## Theorems -/

/-- C4.  Next-free-key-name probe sequence: on an empty layout container
with locale `0x0409` the procedure returns `"f0000409"`; when a child named
exactly `"f0000409"` exists (and `"f00f0409"` does not) it returns
`"f00f0409"`, which is the formatting of the start candidate advanced by
exactly one step of `0x000F0000` — eight lowercase hex digits whose low 16
bits are the locale. -/
theorem nextLayoutKey_probe_sequence :
    get_next_layout_key (layoutsRegistry []) 0x0409 2 =
      some (.ok (str "f0000409")) ∧
    get_next_layout_key (layoutsRegistry [(str "f0000409", emptyNode)])
        0x0409 2 = some (.ok (str "f00f0409")) ∧
    str "f00f0409" = toHex8 (0xf0000409 + 0x000f0000) ∧
    (0xf0000409 + 0x000f0000) % 65536 = 0x0409 := by
  refine ⟨by decide, by decide, by decide, by decide⟩

/-- C2.  The boundary check of `get_next_layout_key` is
`(id | 0xffff0000) == 0xffff0000`, which holds iff the low 16 bits of the
candidate (the locale) are zero, independently of the loop's progress: with
locale `0` and only the very first candidate `0xf0000000` taken, the code
reports namespace exhaustion immediately, although the next stepped
candidate `0xf00f0000` is below the `0xFFFF0000` boundary and free (second
conjunct).  The spec's intended check (fail only when advancing would pass
`0xFFFF0000`) is violated. -/
theorem nextLayoutKey_boundary_check_bug :
    get_next_layout_key (layoutsRegistry [(str "f0000000", emptyNode)]) 0 2 =
      some (.error
        (str "No more layout keys for this locale are available.")) ∧
    (get_layouts_key (layoutsRegistry [(str "f0000000", emptyNode)])).map
        (fun layouts =>
          match layouts.get_subkey (toHex8 0xf00f0000) 0 with
          | .error e => some e
          | .ok _ => none) =
      .ok (some .NotFound) ∧
    ((0xf0000000 ||| 0xffff0000 : Nat) = 0xffff0000) ∧
    ¬ ((0xf0000409 ||| 0xffff0000 : Nat) = 0xffff0000) := by
  refine ⟨by decide, by decide, by decide, by decide⟩

/-- C1 counterexample.  Decoding the multi-string encoding of
`["a", "bc"]` does not reproduce `["a", "bc"]`: the decode loop also emits
the final empty terminator as an extra empty string, yielding
`["a", "bc", ""]`. -/
theorem multiString_roundtrip_counterexample :
    codecRoundTrip (.MultiString [str "a", str "bc"]) ≠
      .ok (.MultiString [str "a", str "bc"]) ∧
    codecRoundTrip (.MultiString [str "a", str "bc"]) =
      .ok (.MultiString [str "a", str "bc", str ""]) := by
  refine ⟨by decide, by decide⟩

/-! ## Codec lemmas -/

/-- A scalar value is never a surrogate. -/
theorem charValid (c : Char) :
    c.toNat < 0xD800 ∨ (0xE000 ≤ c.toNat ∧ c.toNat < 0x110000) := by
  have hv : Nat.isValidChar c.toNat := c.valid
  rcases hv with h | h
  · exact Or.inl h
  · exact Or.inr (by omega)

theorem charOfNatToNat (c : Char) : Char.ofNat c.toNat = c := by
  have hv : Nat.isValidChar c.toNat := c.valid
  unfold Char.ofNat
  rw [dif_pos hv]
  apply Char.ext
  apply UInt32.eq_of_toBitVec_eq
  apply BitVec.eq_of_toNat_eq
  simp [Char.ofNatAux, Char.toNat]
  rfl

/-- Every UTF-16 code unit of a scalar value fits in a `u16`. -/
theorem encodeUtf16Char_lt (c : Char) : ∀ u ∈ encodeUtf16Char c, u < 65536 := by
  have hv := charValid c
  intro u hu
  unfold encodeUtf16Char at hu
  by_cases h : c.toNat < 0x10000
  · rw [if_pos h] at hu
    simp at hu
    omega
  · rw [if_neg h] at hu
    have hq : (c.toNat - 0x10000) / 0x400 < 0x400 := by omega
    have hr : (c.toNat - 0x10000) % 0x400 < 0x400 := Nat.mod_lt _ (by omega)
    simp at hu
    rcases hu with h1 | h1 <;> omega

theorem encodeUtf16_lt (s : RStr) : ∀ u ∈ encodeUtf16 s, u < 65536 := by
  intro u hu
  unfold encodeUtf16 at hu
  rw [List.mem_flatMap] at hu
  obtain ⟨c, _, hc⟩ := hu
  exact encodeUtf16Char_lt c u hc

/-- The code units of a NUL-free scalar value are nonzero. -/
theorem encodeUtf16Char_ne_zero (c : Char) (hc : c.toNat ≠ 0) :
    ∀ u ∈ encodeUtf16Char c, u ≠ 0 := by
  intro u hu
  unfold encodeUtf16Char at hu
  by_cases h : c.toNat < 0x10000
  · rw [if_pos h] at hu
    simp at hu
    omega
  · rw [if_neg h] at hu
    simp at hu
    rcases hu with h1 | h1 <;> omega

theorem encodeUtf16_ne_zero (s : RStr) (hs : ∀ c ∈ s, c.toNat ≠ 0) :
    ∀ u ∈ encodeUtf16 s, u ≠ 0 := by
  intro u hu
  unfold encodeUtf16 at hu
  rw [List.mem_flatMap] at hu
  obtain ⟨c, hcs, hc⟩ := hu
  exact encodeUtf16Char_ne_zero c (hs c hcs) u hc

/-- Reading back the bytes of serialised `u16` code units recovers them. -/
theorem bytesToU16_u16sToBytes (us : List Nat) (h : ∀ u ∈ us, u < 65536) :
    bytesToU16 (u16sToBytes us) = us := by
  induction us with
  | nil => rfl
  | cons u rest ih =>
    have hu : u < 65536 := h u (by simp)
    have hrest := ih (fun x hx => h x (by simp [hx]))
    simp only [u16sToBytes] at hrest ⊢
    simp only [List.flatMap_cons, List.cons_append, List.nil_append]
    unfold bytesToU16
    rw [hrest]
    congr 1
    omega

theorem decodeUtf16Lossy_encodeChar (c : Char) (rest : List Nat) :
    decodeUtf16Lossy (encodeUtf16Char c ++ rest) = c :: decodeUtf16Lossy rest := by
  have hv := charValid c
  by_cases h : c.toNat < 0x10000
  · have henc : encodeUtf16Char c = [c.toNat] := by simp [encodeUtf16Char, h]
    rw [henc]
    cases rest with
    | nil =>
      show decodeUtf16Lossy [c.toNat] = c :: decodeUtf16Lossy []
      simp only [decodeUtf16Lossy]
      rw [if_pos (by omega), charOfNatToNat]
    | cons v vs =>
      show decodeUtf16Lossy (c.toNat :: v :: vs) = c :: decodeUtf16Lossy (v :: vs)
      simp only [decodeUtf16Lossy]
      rw [if_pos (by omega), charOfNatToNat]
  · have henc : encodeUtf16Char c =
        [0xD800 + (c.toNat - 0x10000) / 0x400, 0xDC00 + (c.toNat - 0x10000) % 0x400] := by
      simp [encodeUtf16Char, h]
    have hq : (c.toNat - 0x10000) / 0x400 < 0x400 := by omega
    have hr : (c.toNat - 0x10000) % 0x400 < 0x400 := Nat.mod_lt _ (by omega)
    rw [henc]
    show decodeUtf16Lossy (_ :: _ :: rest) = c :: decodeUtf16Lossy rest
    simp only [decodeUtf16Lossy]
    rw [if_neg (by omega), if_pos (by omega), if_pos (by constructor <;> omega)]
    have harith : 0x10000 + (0xD800 + (c.toNat - 0x10000) / 0x400 - 0xD800) * 0x400 +
        (0xDC00 + (c.toNat - 0x10000) % 0x400 - 0xDC00) = c.toNat := by
      have hdm := Nat.div_add_mod (c.toNat - 0x10000) 0x400
      omega
    rw [harith, charOfNatToNat]

theorem decodeUtf16Strict_encodeChar (c : Char) (rest : List Nat) :
    decodeUtf16Strict (encodeUtf16Char c ++ rest) =
      (decodeUtf16Strict rest).map (c :: ·) := by
  have hv := charValid c
  by_cases h : c.toNat < 0x10000
  · have henc : encodeUtf16Char c = [c.toNat] := by simp [encodeUtf16Char, h]
    rw [henc]
    cases rest with
    | nil =>
      show decodeUtf16Strict [c.toNat] = (decodeUtf16Strict []).map (c :: ·)
      simp only [decodeUtf16Strict]
      rw [if_pos (by omega), charOfNatToNat]
      rfl
    | cons v vs =>
      show decodeUtf16Strict (c.toNat :: v :: vs) =
        (decodeUtf16Strict (v :: vs)).map (c :: ·)
      simp only [decodeUtf16Strict]
      rw [if_pos (by omega), charOfNatToNat]
  · have henc : encodeUtf16Char c =
        [0xD800 + (c.toNat - 0x10000) / 0x400, 0xDC00 + (c.toNat - 0x10000) % 0x400] := by
      simp [encodeUtf16Char, h]
    have hq : (c.toNat - 0x10000) / 0x400 < 0x400 := by omega
    have hr : (c.toNat - 0x10000) % 0x400 < 0x400 := Nat.mod_lt _ (by omega)
    rw [henc]
    show decodeUtf16Strict (_ :: _ :: rest) = (decodeUtf16Strict rest).map (c :: ·)
    simp only [decodeUtf16Strict]
    rw [if_neg (by omega), if_pos (by omega), if_pos (by constructor <;> omega)]
    have harith : 0x10000 + (0xD800 + (c.toNat - 0x10000) / 0x400 - 0xD800) * 0x400 +
        (0xDC00 + (c.toNat - 0x10000) % 0x400 - 0xDC00) = c.toNat := by
      have hdm := Nat.div_add_mod (c.toNat - 0x10000) 0x400
      omega
    rw [harith, charOfNatToNat]

theorem decodeUtf16Lossy_encode (s : RStr) :
    decodeUtf16Lossy (encodeUtf16 s) = s := by
  induction s with
  | nil => rfl
  | cons c cs ih =>
    simp only [encodeUtf16, List.flatMap_cons] at ih ⊢
    rw [decodeUtf16Lossy_encodeChar, ih]

theorem decodeUtf16Strict_encode (s : RStr) :
    decodeUtf16Strict (encodeUtf16 s) = some s := by
  induction s with
  | nil => rfl
  | cons c cs ih =>
    simp only [encodeUtf16, List.flatMap_cons] at ih ⊢
    rw [decodeUtf16Strict_encodeChar, ih]
    rfl

theorem takeWhile_append_zero (p : Nat → Bool) (l t : List Nat)
    (h : ∀ x ∈ l, p x = true) (h0 : p 0 = false) :
    (l ++ 0 :: t).takeWhile p = l := by
  induction l with
  | nil => simp [List.takeWhile_cons, h0]
  | cons a as ih =>
    have ha : p a = true := h a (by simp)
    simp only [List.cons_append, List.takeWhile_cons, ha, if_true]
    rw [ih (fun x hx => h x (by simp [hx]))]

theorem multiSzSplit_append (s t : List Nat) (h : ∀ x ∈ s, x ≠ 0) :
    multiSzSplit (s ++ 0 :: t) = s :: multiSzSplit t := by
  induction s with
  | nil => simp [multiSzSplit]
  | cons a as ih =>
    have ha : a ≠ 0 := h a (by simp)
    simp only [List.cons_append, multiSzSplit]
    rw [if_neg ha]
    have hap : as.append (0 :: t) = as ++ 0 :: t := rfl
    rw [hap, ih (fun x hx => h x (by simp [hx]))]

theorem multiSzSplit_flat (l : List (List Nat)) (h : ∀ s ∈ l, ∀ x ∈ s, x ≠ 0) :
    multiSzSplit ((l.flatMap (fun s => s ++ [0])) ++ [0]) = l ++ [[]] := by
  induction l with
  | nil => simp [multiSzSplit]
  | cons s ls ih =>
    simp only [List.flatMap_cons, List.append_assoc]
    have hap : [0] ++ (ls.flatMap (fun s => s ++ [0]) ++ [0]) =
        0 :: (ls.flatMap (fun s => s ++ [0]) ++ [0]) := rfl
    rw [hap, multiSzSplit_append _ _ (h s (by simp)),
      ih (fun x hx => h x (by simp [hx]))]
    rfl

theorem dword_roundtrip (d : Nat) (hd : d < 4294967296) :
    codecRoundTrip (.Dword d) = .ok (.Dword d) := by
  have h4 : intLeBytes 4 d =
      [d % 256, d / 256 % 256, d / 65536 % 256, d / 16777216 % 256] := by
    have hr : List.range 4 = [0, 1, 2, 3] := rfl
    simp [intLeBytes, hr]
  show RegistryValueData.from_data REG_DWORD_LITTLE_ENDIAN (intLeBytes 4 d) =
    .ok (.Dword d)
  rw [h4]
  unfold RegistryValueData.from_data
  norm_num [REG_NONE, REG_BINARY, REG_DWORD_LITTLE_ENDIAN, REG_DWORD_BIG_ENDIAN,
    REG_QWORD_LITTLE_ENDIAN, REG_SZ, REG_MULTI_SZ, REG_EXPAND_SZ, List.getD]
  omega

theorem qword_roundtrip (q : Nat) (hq : q < 18446744073709551616) :
    codecRoundTrip (.Qword q) = .ok (.Qword q) := by
  have h8 : intLeBytes 8 q =
      [q % 256, q / 256 % 256, q / 65536 % 256, q / 16777216 % 256,
       q / 4294967296 % 256, q / 1099511627776 % 256,
       q / 281474976710656 % 256, q / 72057594037927936 % 256] := by
    have hr : List.range 8 = [0, 1, 2, 3, 4, 5, 6, 7] := rfl
    simp [intLeBytes, hr]
  show RegistryValueData.from_data REG_QWORD_LITTLE_ENDIAN (intLeBytes 8 q) =
    .ok (.Qword q)
  rw [h8]
  unfold RegistryValueData.from_data
  norm_num [REG_NONE, REG_BINARY, REG_DWORD_LITTLE_ENDIAN, REG_DWORD_BIG_ENDIAN,
    REG_QWORD_LITTLE_ENDIAN, REG_SZ, REG_MULTI_SZ, REG_EXPAND_SZ, List.getD,
    List.range_succ]
  omega

theorem string_roundtrip (s : RStr) (hs : ∀ c ∈ s, c.toNat ≠ 0) :
    codecRoundTrip (.String s) = .ok (.String s) := by
  have hb : ∀ u ∈ encodeUtf16 s ++ [0], u < 65536 := by
    intro u hu
    rcases List.mem_append.mp hu with h1 | h1
    · exact encodeUtf16_lt s u h1
    · simp at h1; omega
  show RegistryValueData.from_data REG_SZ (u16sToBytes (encodeUtf16 s ++ [0])) =
    .ok (.String s)
  unfold RegistryValueData.from_data
  norm_num [REG_NONE, REG_BINARY, REG_DWORD_LITTLE_ENDIAN, REG_DWORD_BIG_ENDIAN,
    REG_QWORD_LITTLE_ENDIAN, REG_SZ, REG_MULTI_SZ, REG_EXPAND_SZ]
  rw [bytesToU16_u16sToBytes _ hb,
    takeWhile_append_zero (fun u => !decide (u = 0)) _ _
      (by intro x hx; simpa using encodeUtf16_ne_zero s hs x hx) (by simp),
    decodeUtf16Strict_encode]

theorem multiSzSplit_flat_enc (ss : List RStr)
    (h : ∀ s ∈ ss, ∀ c ∈ s, c.toNat ≠ 0) :
    multiSzSplit ((ss.flatMap fun s => encodeUtf16 s ++ [0]) ++ [0]) =
      ss.map encodeUtf16 ++ [[]] := by
  induction ss with
  | nil => simp [multiSzSplit]
  | cons s ls ih =>
    simp only [List.flatMap_cons, List.append_assoc, List.map_cons]
    have hap : [0] ++ ((ls.flatMap fun s => encodeUtf16 s ++ [0]) ++ [0]) =
        0 :: ((ls.flatMap fun s => encodeUtf16 s ++ [0]) ++ [0]) := rfl
    rw [hap, multiSzSplit_append _ _ (encodeUtf16_ne_zero s (h s (by simp))),
      ih (fun x hx => h x (by simp [hx]))]
    rfl

theorem multiString_roundtrip (ss : List RStr)
    (hss : ∀ s ∈ ss, ∀ c ∈ s, c.toNat ≠ 0) :
    codecRoundTrip (.MultiString ss) = .ok (.MultiString (ss ++ [[]])) := by
  have hb : ∀ u ∈ (ss.flatMap fun s => encodeUtf16 s ++ [0]) ++ [0], u < 65536 := by
    intro u hu
    rcases List.mem_append.mp hu with h1 | h1
    · rw [List.mem_flatMap] at h1
      obtain ⟨s, hsmem, hu2⟩ := h1
      rcases List.mem_append.mp hu2 with h2 | h2
      · exact encodeUtf16_lt s u h2
      · simp at h2; omega
    · simp at h1; omega
  show RegistryValueData.from_data REG_MULTI_SZ
      (u16sToBytes ((ss.flatMap fun s => encodeUtf16 s ++ [0]) ++ [0])) =
    .ok (.MultiString (ss ++ [[]]))
  unfold RegistryValueData.from_data
  norm_num [REG_NONE, REG_BINARY, REG_DWORD_LITTLE_ENDIAN, REG_DWORD_BIG_ENDIAN,
    REG_QWORD_LITTLE_ENDIAN, REG_SZ, REG_MULTI_SZ, REG_EXPAND_SZ]
  rw [bytesToU16_u16sToBytes _ hb, multiSzSplit_flat_enc ss hss,
    List.map_append, List.map_map]
  have hmapid : ss.map (decodeUtf16Lossy ∘ encodeUtf16) = ss := by
    have : ∀ s ∈ ss, (decodeUtf16Lossy ∘ encodeUtf16) s = id s := by
      intro s _
      exact decodeUtf16Lossy_encode s
    rw [List.map_congr_left this, List.map_id]
  rw [hmapid]
  rfl

/-- C1 (amended).  Codec round trip: decode-of-encode is the identity for
32-bit and 64-bit integers and for NUL-free single strings; for a sequence
of non-empty NUL-free strings, decoding the multi-string encoding reproduces
the sequence in order *followed by one extra empty string* (the decode loop
also emits the final list terminator), rather than the sequence alone as
claimed. -/
theorem codec_roundtrip_c1 :
    (∀ d : Nat, d < 4294967296 → codecRoundTrip (.Dword d) = .ok (.Dword d)) ∧
    (∀ q : Nat, q < 18446744073709551616 →
      codecRoundTrip (.Qword q) = .ok (.Qword q)) ∧
    (∀ s : RStr, (∀ c ∈ s, c.toNat ≠ 0) →
      codecRoundTrip (.String s) = .ok (.String s)) ∧
    (∀ ss : List RStr, (∀ s ∈ ss, s ≠ [] ∧ ∀ c ∈ s, c.toNat ≠ 0) →
      codecRoundTrip (.MultiString ss) = .ok (.MultiString (ss ++ [str ""]))) :=
  ⟨dword_roundtrip, qword_roundtrip, string_roundtrip,
    fun ss h => multiString_roundtrip ss (fun s hs c hc => (h s hs).2 c hc)⟩

theorem codec_roundtrip_c1_witness :
    codecRoundTrip (.Dword 7) = .ok (.Dword 7) ∧
    codecRoundTrip (.Qword 7) = .ok (.Qword 7) ∧
    codecRoundTrip (.String (str "hi")) = .ok (.String (str "hi")) ∧
    codecRoundTrip (.MultiString [str "a", str "bc"]) =
      .ok (.MultiString [str "a", str "bc", str ""]) :=
  ⟨codec_roundtrip_c1.1 7 (by decide),
   codec_roundtrip_c1.2.1 7 (by decide),
   codec_roundtrip_c1.2.2.1 (str "hi") (by decide),
   codec_roundtrip_c1.2.2.2 [str "a", str "bc"] (by decide)⟩

theorem splitOnBack_no_sep (s : RStr) (h : ¬ '\\' ∈ s) : splitOnBack s = [s] := by
  induction s with
  | nil => rfl
  | cons c cs ih =>
    have hc : c ≠ '\\' := by intro he; exact h (by simp [he])
    have ht := ih (fun hm => h (by simp [hm]))
    simp only [splitOnBack, ht]
    rw [if_neg hc]

theorem splitOnBack_append (s t : RStr) (h : ¬ '\\' ∈ s) :
    splitOnBack (s ++ '\\' :: t) = s :: splitOnBack t := by
  induction s with
  | nil =>
    simp [List.nil_append, splitOnBack]
  | cons c cs ih =>
    have hc : c ≠ '\\' := by intro he; exact h (by simp [he])
    have ht := ih (fun hm => h (by simp [hm]))
    simp only [List.cons_append, splitOnBack, List.append_eq, ht]
    rw [if_neg hc]

theorem splitOnceBack_append (s t : RStr) (h : ¬ '\\' ∈ s) :
    splitOnceBack (s ++ '\\' :: t) = some (s, t) := by
  induction s with
  | nil =>
    simp [List.nil_append, splitOnceBack]
  | cons c cs ih =>
    have hc : c ≠ '\\' := by intro he; exact h (by simp [he])
    have ht := ih (fun hm => h (by simp [hm]))
    simp only [List.cons_append, splitOnceBack, List.append_eq, ht]
    rw [if_neg hc]
    rfl

theorem splitOnBack_intercalate (segs : List RStr) (hne : segs ≠ [])
    (hbs : ∀ s ∈ segs, ¬ '\\' ∈ s) :
    splitOnBack (intercalateBack segs) = segs := by
  induction segs with
  | nil => exact absurd rfl hne
  | cons s rest ih =>
    cases rest with
    | nil =>
      show splitOnBack (intercalateBack [s]) = [s]
      exact splitOnBack_no_sep s (hbs s (by simp))
    | cons s2 rest2 =>
      show splitOnBack (s ++ '\\' :: intercalateBack (s2 :: rest2)) = _
      rw [splitOnBack_append _ _ (hbs s (by simp)),
        ih (by simp) (fun x hx => hbs x (by simp [hx]))]

theorem exceptKeyEq_refl (x : Except RegistryError RegistryKey) :
    exceptKeyEq x x = true := by
  cases x with
  | ok k => simp [exceptKeyEq, regKeyEq]
  | error e => simp [exceptKeyEq]

theorem intercalate_nul_free (segs : List RStr)
    (h : ∀ s ∈ segs, ¬ 0 ∈ s.map Char.toNat) :
    ¬ 0 ∈ (intercalateBack segs).map Char.toNat := by
  induction segs with
  | nil => simp [intercalateBack]
  | cons s rest ih =>
    cases rest with
    | nil => exact h s (by simp)
    | cons s2 r2 =>
      show ¬ 0 ∈ (s ++ '\\' :: intercalateBack (s2 :: r2)).map Char.toNat
      intro hmem
      rw [List.map_append, List.mem_append] at hmem
      rcases hmem with h1 | h1
      · exact h s (by simp) h1
      · rw [List.map_cons, List.mem_cons] at h1
        rcases h1 with h2 | h2
        · simp [Char.toNat] at h2
        · exact ih (fun x hx => h x (by simp [hx])) h2

theorem foldl_open_error (segs : List RStr) (e : RegistryError) (h : Nat) :
    segs.foldl (fun (acc : Except RegistryError RegistryKey) seg =>
      match acc with
      | .error e2 => .error e2
      | .ok kk => RegistryKey.get_subkey kk seg h)
      (.error e) = .error e := by
  induction segs with
  | nil => rfl
  | cons s rest ih => simpa using ih

theorem get_subkey_chain (k : RegistryKey) (s t : RStr) (h : Nat)
    (hbs : ¬ '\\' ∈ s)
    (hnul : ¬ 0 ∈ (s ++ '\\' :: t).map Char.toNat) :
    k.get_subkey (s ++ '\\' :: t) h =
      (match lookupChild k.node s with
       | none => .error .NotFound
       | some c => RegistryKey.get_subkey ⟨h, c, k.path ++ '\\' :: s⟩ t h) := by
  have hnul_t : ¬ 0 ∈ t.map Char.toNat := by
    intro hm
    exact hnul (by rw [List.map_append, List.mem_append]; exact Or.inr (by simp [hm]))
  unfold RegistryKey.get_subkey
  rw [if_neg hnul, splitOnBack_append s t hbs]
  cases hc : lookupChild k.node s with
  | none => simp [openSegs, hc]
  | some c =>
    simp only [openSegs, hc]
    rw [if_neg hnul_t]
    cases ho : openSegs c (splitOnBack t) with
    | none => rfl
    | some n =>
      show (Except.ok (RegistryKey.mk h n (k.path ++ '\\' :: (s ++ '\\' :: t))) :
          Except RegistryError RegistryKey) =
        Except.ok (RegistryKey.mk h n ((k.path ++ '\\' :: s) ++ '\\' :: t))
      rw [List.append_assoc]
      rfl

theorem multi_open_equiv (segs : List RStr) :
    ∀ (k : RegistryKey) (h : Nat), segs ≠ [] →
    (∀ s ∈ segs, ¬ '\\' ∈ s ∧ ¬ 0 ∈ s.map Char.toNat) →
    exceptKeyEq (k.get_subkey (intercalateBack segs) h)
      (segs.foldl (fun (acc : Except RegistryError RegistryKey) seg =>
        match acc with
        | .error e2 => .error e2
        | .ok kk => RegistryKey.get_subkey kk seg h) (.ok k)) = true := by
  induction segs with
  | nil => intro k h hne _; exact absurd rfl hne
  | cons s rest ih =>
    intro k h _ hseg
    have hs := hseg s (by simp)
    cases rest with
    | nil =>
      show exceptKeyEq (k.get_subkey s h) _ = true
      simp only [List.foldl_cons, List.foldl_nil]
      exact exceptKeyEq_refl _
    | cons s2 r2 =>
      have hnul_all : ¬ 0 ∈ (s ++ '\\' :: intercalateBack (s2 :: r2)).map Char.toNat := by
        intro hm
        rw [List.map_append, List.mem_append] at hm
        rcases hm with h1 | h1
        · exact hs.2 h1
        · rw [List.map_cons, List.mem_cons] at h1
          rcases h1 with h2 | h2
          · simp [Char.toNat] at h2
          · exact intercalate_nul_free (s2 :: r2)
              (fun x hx => (hseg x (by simp [hx])).2) h2
      show exceptKeyEq (k.get_subkey (s ++ '\\' :: intercalateBack (s2 :: r2)) h) _ = true
      rw [get_subkey_chain k s _ h hs.1 hnul_all]
      simp only [List.foldl_cons]
      cases hc : lookupChild k.node s with
      | none =>
        have hks : k.get_subkey s h = .error .NotFound := by
          unfold RegistryKey.get_subkey
          rw [if_neg hs.2, splitOnBack_no_sep s hs.1]
          simp [openSegs, hc]
        rw [hks]
        show exceptKeyEq (.error .NotFound)
          (List.foldl _ (.error .NotFound) r2) = true
        rw [foldl_open_error]
        rfl
      | some c =>
        have hks : k.get_subkey s h =
            .ok (RegistryKey.mk h c (k.path ++ '\\' :: s)) := by
          unfold RegistryKey.get_subkey
          rw [if_neg hs.2, splitOnBack_no_sep s hs.1]
          simp [openSegs, hc]
        rw [hks]
        have hih := ih (RegistryKey.mk h c (k.path ++ '\\' :: s)) h (by simp)
          (fun x hx => hseg x (by simp [hx]))
        rw [List.foldl_cons] at hih
        exact hih

/-- C6.  Path resolution equivalence: `from_path` (which opens the whole
remaining subpath in a single `RegOpenKeyExW`-style call) is equivalent to
the spec's iterative per-segment resolution, for every root and every
nonempty list of separator-free, NUL-free segments: both fail with the same
error, or both succeed with handles equal under the `PartialEq` identity
rule (their paths coincide).  In particular `from_path("HKLM\\SYSTEM")`
equals opening root `HKLM` and then child `SYSTEM`, whatever fresh handles
the OS picks. -/
theorem resolvePath_equiv :
    (∀ (reg : Registry) (root_name : RStr) (segs : List RStr) (h : Nat),
      segs ≠ [] →
      ¬ '\\' ∈ root_name →
      (∀ s ∈ segs, ¬ '\\' ∈ s ∧ ¬ 0 ∈ s.map Char.toNat) →
      exceptKeyEq
        (reg.from_path (root_name ++ '\\' :: intercalateBack segs) h)
        (resolve_path_spec reg root_name segs h) = true) ∧
    exceptKeyEq
      ((layoutsRegistry []).from_path (str "HKLM\\SYSTEM") 11)
      ((layoutsRegistry []).local_machine.get_subkey (str "SYSTEM") 12) = true := by
  constructor
  · intro reg root_name segs h hne hroot hsegs
    unfold Registry.from_path resolve_path_spec
    rw [splitOnceBack_append root_name _ hroot]
    show exceptKeyEq
      (match get_root_from_name reg root_name with
       | .error e => .error e
       | .ok root => root.get_subkey (intercalateBack segs) h)
      (match get_root_from_name reg root_name with
       | .error e => .error e
       | .ok root =>
         segs.foldl (fun (acc : Except RegistryError RegistryKey) seg =>
           match acc with
           | .error e2 => .error e2
           | .ok kk => RegistryKey.get_subkey kk seg h) (.ok root)) = true
    cases hr : get_root_from_name reg root_name with
    | error e => simp [exceptKeyEq]
    | ok root => exact multi_open_equiv segs root h hne hsegs
  · decide

theorem resolvePath_equiv_witness :
    exceptKeyEq
      (abRegistry.from_path (str "HKLM" ++ '\\' :: intercalateBack [str "A", str "B"]) 9)
      (resolve_path_spec abRegistry (str "HKLM") [str "A", str "B"] 9) = true :=
  resolvePath_equiv.1 abRegistry (str "HKLM") [str "A", str "B"] 9
    (by decide) (by decide) (by decide)

/-- C7.  `parent()` of any root key fails with the invalid-operation error;
`parent()` of a key at `HKLM\A\B` yields a handle equal (by the identity
rule) to directly resolving `HKLM\A`. -/
theorem parent_semantics :
    (∀ (reg : Registry) (k : RegistryKey) (h : Nat), k.is_root_key = true →
      RegistryKey.get_parent reg k h =
        .error (.Other (str "Root keys have no parents!"))) ∧
    (abRegistry.from_path (str "HKLM\\A\\B") 21).map
        (fun k => exceptKeyEq (RegistryKey.get_parent abRegistry k 22)
          (abRegistry.from_path (str "HKLM\\A") 23)) = .ok true := by
  constructor
  · intro reg k h hk
    unfold RegistryKey.get_parent
    rw [if_pos hk]
  · decide

theorem parent_semantics_witness :
    RegistryKey.get_parent (layoutsRegistry []) ((layoutsRegistry []).local_machine) 5 =
      .error (.Other (str "Root keys have no parents!")) :=
  parent_semantics.1 (layoutsRegistry []) ((layoutsRegistry []).local_machine) 5
    (by decide)

/-- C8.  `try_get_value` maps a `NotFound` of the underlying read to a
successful empty result, propagates every other failure unchanged, and wraps
success in `Some`; opening an absent child with `get_subkey` fails with
`NotFound`. -/
theorem tryGetValue_semantics :
    (∀ (k : RegistryKey) (name : Option RStr),
      k.get_value name = .error .NotFound → k.try_get_value name = .ok none) ∧
    (∀ (k : RegistryKey) (name : Option RStr) (e : RegistryError),
      k.get_value name = .error e → e ≠ .NotFound →
      k.try_get_value name = .error e) ∧
    (∀ (k : RegistryKey) (name : Option RStr) (v : RegistryValueData),
      k.get_value name = .ok v → k.try_get_value name = .ok (some v)) ∧
    (∀ (k : RegistryKey) (name : RStr) (h : Nat),
      ¬ '\\' ∈ name → ¬ 0 ∈ name.map Char.toNat →
      lookupChild k.node name = none →
      k.get_subkey name h = .error .NotFound) := by
  refine ⟨?_, ?_, ?_, ?_⟩
  · intro k name he
    unfold RegistryKey.try_get_value
    rw [he]
    simp
  · intro k name e he hne
    unfold RegistryKey.try_get_value
    rw [he]
    simp [hne]
  · intro k name v hv
    unfold RegistryKey.try_get_value
    rw [hv]
  · intro k name h hbs hnul hlk
    unfold RegistryKey.get_subkey
    rw [if_neg hnul, splitOnBack_no_sep name hbs]
    simp [openSegs, hlk]

theorem tryGetValue_semantics_witness :
    (RegistryKey.mk 0 emptyNode (str "K")).try_get_value
      (some (str "Layout Id")) = .ok none ∧
    (RegistryKey.mk 0 (RegNode.node [(some (str "V"), 4, [1, 2, 3])] [])
      (str "K")).try_get_value (some (str "V")) =
      .error (.Other (str "Invalid data length for REG_DWORD_LITTLE_ENDIAN!")) ∧
    (RegistryKey.mk 0 (layoutChild (str "0f00")) (str "K")).try_get_value
      (some (str "Layout Id")) = .ok (some (.String (str "0f00"))) ∧
    (RegistryKey.mk 0 emptyNode (str "K")).get_subkey (str "X") 3 =
      .error .NotFound :=
  ⟨tryGetValue_semantics.1 _ _ (by decide),
   tryGetValue_semantics.2.1 _ _ _ (by decide) (by decide),
   tryGetValue_semantics.2.2.1 _ _ _ (by decide),
   tryGetValue_semantics.2.2.2 _ (str "X") 3 (by decide) (by decide) rfl⟩

/-- `get_layouts_key` on `f000Registry` evaluates to `f000LayoutsKey`. -/
theorem f000_layouts_key : get_layouts_key f000Registry = .ok f000LayoutsKey :=
  rfl

theorem f000_child_id : child_layout_id f000LayoutsKey (str "f0000409") =
    .ok (some 0xF000) := rfl

theorem f000_mark_loop (marks : List Bool)
    (hlen : marks.length = 0xF000 - 0x0F00) :
    mark_loop f000LayoutsKey [str "f0000409"] marks =
      .panic (str "index out of bounds") := by
  have hmark : mark_layout_id_used marks 0xF000 =
      .panic (str "index out of bounds") := by
    unfold mark_layout_id_used
    rw [if_neg (by omega), if_neg (by rw [hlen]; omega)]
  simp only [mark_loop]
  rw [f000_child_id]
  show (match mark_layout_id_used marks 0xF000 with
    | .ok marks2 => mark_loop f000LayoutsKey [] marks2
    | .err e => RunResult.err e
    | .panic m => RunResult.panic m) = .panic (str "index out of bounds")
  rw [hmark]

theorem f000_children_names :
    f000LayoutsKey.iter_children_names = [str "f0000409"] := rfl

theorem f000_core : next_layout_id_core f000LayoutsKey =
    .panic (str "index out of bounds") := by
  rw [next_layout_id_core, f000_children_names,
    f000_mark_loop _ (List.length_replicate _ _)]

/-- C10.  In the `get_next_layout_id` scan, marking a used slot indexes the
`0xF000 - 0x0F00`-element marker array at `v - 0x0F00` guarded only by the
lower bound: the index is within bounds exactly for `0x0F00 ≤ v < 0xF000`,
any parsed identifier `v ≥ 0xF000` panics with an out-of-bounds index, and
the out-of-bounds branch is reachable from a store whose child holds the
"Layout Id" string `"f000"`. -/
theorem markLayoutId_bounds :
    (∀ (v : Nat) (marks : List Bool), marks.length = 0xF000 - 0x0F00 →
      0x0F00 ≤ v → ((v - 0x0F00 < marks.length) ↔ v < 0xF000)) ∧
    (∀ (v : Nat) (marks : List Bool), marks.length = 0xF000 - 0x0F00 →
      0xF000 ≤ v →
      mark_layout_id_used marks v = .panic (str "index out of bounds")) ∧
    get_next_layout_id f000Registry = .panic (str "index out of bounds") := by
  refine ⟨?_, ?_, ?_⟩
  · intro v marks hlen hge
    rw [hlen]
    omega
  · intro v marks hlen hge
    unfold mark_layout_id_used
    rw [if_neg (by omega), if_neg (by rw [hlen]; omega)]
  · unfold get_next_layout_id
    rw [f000_layouts_key]
    exact f000_core

theorem markLayoutId_bounds_witness :
    ((0xF000 - 0x0F00 < (List.replicate (0xF000 - 0x0F00) false).length) ↔
      (0xF000 : Nat) < 0xF000) ∧
    mark_layout_id_used (List.replicate (0xF000 - 0x0F00) false) 0xF000 =
      .panic (str "index out of bounds") :=
  ⟨markLayoutId_bounds.1 0xF000 _ (List.length_replicate _ _) (by omega),
   markLayoutId_bounds.2.1 0xF000 _ (List.length_replicate _ _) (by omega)⟩

theorem mark_len (marks m2 : List Bool) (v : Nat)
    (h : mark_layout_id_used marks v = .ok m2) : m2.length = marks.length := by
  unfold mark_layout_id_used at h
  by_cases h1 : v < 0x0F00
  · rw [if_pos h1] at h
    cases h
    rfl
  · rw [if_neg h1] at h
    by_cases h2 : v - 0x0F00 < marks.length
    · rw [if_pos h2] at h
      cases h
      simp [List.length_set]
    · rw [if_neg h2] at h
      cases h

theorem mark_get (marks m2 : List Bool) (v : Nat)
    (h : mark_layout_id_used marks v = .ok m2) :
    ∀ i (hi : i < m2.length) (hi2 : i < marks.length),
      (m2.get ⟨i, hi⟩ = true ↔
        (marks.get ⟨i, hi2⟩ = true ∨ v = 0x0F00 + i)) := by
  intro i hi hi2
  unfold mark_layout_id_used at h
  by_cases h1 : v < 0x0F00
  · rw [if_pos h1] at h
    cases h
    constructor
    · intro hg; exact Or.inl hg
    · intro hg
      rcases hg with hg | hg
      · exact hg
      · omega
  · rw [if_neg h1] at h
    by_cases h2 : v - 0x0F00 < marks.length
    · rw [if_pos h2] at h
      cases h
      by_cases h3 : v - 0x0F00 = i
      · have hv : v = 0x0F00 + i := by omega
        simp [List.getElem_set, h3, hv]
      · have hv : ¬ v = 0x0F00 + i := by omega
        simp [List.getElem_set, h3, hv]
    · rw [if_neg h2] at h
      cases h

theorem mark_ok_never_err (marks : List Bool) (v : Nat) (e : RStr) :
    mark_layout_id_used marks v ≠ .err e := by
  unfold mark_layout_id_used
  by_cases h1 : v < 0x0F00
  · rw [if_pos h1]; intro hc; cases hc
  · rw [if_neg h1]
    by_cases h2 : v - 0x0F00 < marks.length
    · rw [if_pos h2]; intro hc; cases hc
    · rw [if_neg h2]; intro hc; cases hc

theorem ids_from_nil (K : RegistryKey) :
    enumerated_layout_ids_from K [] = [] := rfl

theorem ids_from_cons_skip (K : RegistryKey) (n : RStr) (ns : List RStr)
    (hc : ∀ v : Nat, child_layout_id K n ≠ .ok (some v)) :
    enumerated_layout_ids_from K (n :: ns) = enumerated_layout_ids_from K ns := by
  unfold enumerated_layout_ids_from
  rw [List.foldr_cons]
  cases hcc : child_layout_id K n with
  | ok o =>
    cases o with
    | none => rfl
    | some v => exact absurd hcc (hc v)
  | err e => rfl
  | panic m => rfl

theorem ids_from_cons_some (K : RegistryKey) (n : RStr) (ns : List RStr)
    (v : Nat) (hc : child_layout_id K n = .ok (some v)) :
    enumerated_layout_ids_from K (n :: ns) =
      v :: enumerated_layout_ids_from K ns := by
  unfold enumerated_layout_ids_from
  rw [List.foldr_cons, hc]

theorem mark_loop_invariant (K : RegistryKey) (names : List RStr) :
    ∀ (marks marks' : List Bool), mark_loop K names marks = .ok marks' →
      marks'.length = marks.length ∧
      (∀ i (hi : i < marks'.length) (hi2 : i < marks.length),
        (marks'.get ⟨i, hi⟩ = true ↔
          (marks.get ⟨i, hi2⟩ = true ∨
            (0x0F00 + i) ∈ enumerated_layout_ids_from K names))) := by
  induction names with
  | nil =>
    intro marks marks' h
    have h2 : RunResult.ok marks = .ok marks' := h
    cases h2
    refine ⟨rfl, ?_⟩
    intro i hi hi2
    rw [ids_from_nil]
    simp
  | cons n ns ih =>
    intro marks marks' h
    cases hc : child_layout_id K n with
    | err e =>
      rw [mark_loop, hc] at h
      cases h
    | panic m =>
      rw [mark_loop, hc] at h
      cases h
    | ok o =>
      rw [mark_loop, hc] at h
      cases o with
      | none =>
        have h2 : mark_loop K ns marks = .ok marks' := h
        obtain ⟨hlen, hget⟩ := ih marks marks' h2
        refine ⟨hlen, ?_⟩
        intro i hi hi2
        rw [hget i hi hi2,
          ids_from_cons_skip K n ns (fun v hv => by rw [hc] at hv; cases hv)]
      | some v =>
        have h2 : (match mark_layout_id_used marks v with
          | .ok marks2 => mark_loop K ns marks2
          | .err e => RunResult.err e
          | .panic m => RunResult.panic m) = .ok marks' := h
        cases hm : mark_layout_id_used marks v with
        | err e => exact absurd hm (mark_ok_never_err marks v e)
        | panic m =>
          rw [hm] at h2
          cases h2
        | ok m2 =>
          rw [hm] at h2
          have h3 : mark_loop K ns m2 = .ok marks' := h2
          obtain ⟨hlen, hget⟩ := ih m2 marks' h3
          have hl2 := mark_len marks m2 v hm
          refine ⟨by rw [hlen, hl2], ?_⟩
          intro i hi hi2
          have hi3 : i < m2.length := by rw [hl2]; exact hi2
          rw [hget i hi hi3, mark_get marks m2 v hm i hi3 hi2,
            ids_from_cons_some K n ns v hc, List.mem_cons]
          constructor
          · intro hx
            rcases hx with (hx | hx) | hx
            · exact Or.inl hx
            · exact Or.inr (Or.inl hx.symm)
            · exact Or.inr (Or.inr hx)
          · intro hx
            rcases hx with hx | hx | hx
            · exact Or.inl (Or.inl hx)
            · exact Or.inl (Or.inr hx.symm)
            · exact Or.inr hx

theorem check_never_err (marks : List Bool) (id : Nat) (e : RStr) :
    check_layout_id_used marks id ≠ .err e := by
  unfold check_layout_id_used
  by_cases h : id - 0x0F00 < marks.length
  · rw [dif_pos h]; intro hc; cases hc
  · rw [dif_neg h]; intro hc; cases hc

theorem scan_loop_ok (marks : List Bool) :
    ∀ (remaining id r : Nat), scan_loop marks remaining id = .ok r →
      id ≤ r ∧ r < id + remaining ∧
      check_layout_id_used marks r = .ok false ∧
      ∀ j, id ≤ j → j < r → check_layout_id_used marks j = .ok true := by
  intro remaining
  induction remaining with
  | zero =>
    intro id r h
    cases h
  | succ rem ih =>
    intro id r h
    cases hc : check_layout_id_used marks id with
    | err e => exact absurd hc (check_never_err marks id e)
    | panic m =>
      rw [scan_loop, hc] at h
      cases h
    | ok b =>
      rw [scan_loop, hc] at h
      cases b with
      | false =>
        have h2 : RunResult.ok id = .ok r := h
        cases h2
        refine ⟨Nat.le_refl _, by omega, hc, ?_⟩
        intro j hj1 hj2
        omega
      | true =>
        have h2 : scan_loop marks rem (id + 1) = .ok r := h
        obtain ⟨ha, hb, hf, hall⟩ := ih (id + 1) r h2
        refine ⟨by omega, by omega, hf, ?_⟩
        intro j hj1 hj2
        by_cases hj : j = id
        · rw [hj]; exact hc
        · exact hall j (by omega) hj2

theorem scan_loop_err (marks : List Bool) :
    ∀ (remaining id : Nat) (msg : RStr), scan_loop marks remaining id = .err msg →
      ∀ j, id ≤ j → j < id + remaining →
        check_layout_id_used marks j = .ok true := by
  intro remaining
  induction remaining with
  | zero =>
    intro id msg _ j hj1 hj2
    omega
  | succ rem ih =>
    intro id msg h j hj1 hj2
    cases hc : check_layout_id_used marks id with
    | err e => exact absurd hc (check_never_err marks id e)
    | panic m =>
      rw [scan_loop, hc] at h
      cases h
    | ok b =>
      rw [scan_loop, hc] at h
      cases b with
      | false =>
        have h2 : RunResult.ok (α := Nat) id = .err msg := h
        cases h2
      | true =>
        have h2 : scan_loop marks rem (id + 1) = .err msg := h
        by_cases hj : j = id
        · rw [hj]; exact hc
        · exact ih (id + 1) msg h2 j (by omega) (by omega)

theorem check_ok_elim (marks : List Bool) (id : Nat) (b : Bool)
    (h : check_layout_id_used marks id = .ok b) :
    ∃ hb : id - 0x0F00 < marks.length, marks.get ⟨id - 0x0F00, hb⟩ = b := by
  unfold check_layout_id_used at h
  by_cases h2 : id - 0x0F00 < marks.length
  · rw [dif_pos h2] at h
    cases h
    exact ⟨h2, rfl⟩
  · rw [dif_neg h2] at h
    cases h

theorem core_ok_minimal (layouts : RegistryKey) (id : Nat)
    (h : next_layout_id_core layouts = .ok id) :
    0x0F00 ≤ id ∧ id < 0xF000 ∧
    ¬ id ∈ enumerated_layout_ids layouts ∧
    (∀ j, 0x0F00 ≤ j → j < id → j ∈ enumerated_layout_ids layouts) := by
  rw [next_layout_id_core] at h
  cases hm : mark_loop layouts layouts.iter_children_names
      (List.replicate (0xF000 - 0x0F00) false) with
  | err e => rw [hm] at h; cases h
  | panic m => rw [hm] at h; cases h
  | ok marks =>
    rw [hm] at h
    have hscan : scan_loop marks (0xF000 - 0x0F00) 0x0F00 = .ok id := h
    obtain ⟨hlen, hget⟩ := mark_loop_invariant layouts
      layouts.iter_children_names _ marks hm
    rw [List.length_replicate] at hlen
    obtain ⟨h1, h2, hfree, hused⟩ := scan_loop_ok marks _ _ _ hscan
    have hid : id < 0xF000 := by omega
    refine ⟨h1, hid, ?_, ?_⟩
    · obtain ⟨hb, hgv⟩ := check_ok_elim marks id false hfree
      have hb2 : id - 0x0F00 < (List.replicate (0xF000 - 0x0F00) false).length := by
        rw [List.length_replicate]; omega
      have hiff := hget (id - 0x0F00) hb hb2
      rw [hgv] at hiff
      have hrepl : (List.replicate (0xF000 - 0x0F00) false).get
          ⟨id - 0x0F00, hb2⟩ = false := by
        rw [List.get_eq_getElem, List.getElem_replicate]
      rw [hrepl] at hiff
      have hix : 0x0F00 + (id - 0x0F00) = id := by omega
      rw [hix] at hiff
      intro hmem
      have : False := by
        have := hiff.mpr (Or.inr hmem)
        simp at this
      exact this
    · intro j hj1 hj2
      have hcj := hused j hj1 hj2
      obtain ⟨hb, hgv⟩ := check_ok_elim marks j true hcj
      have hb2 : j - 0x0F00 < (List.replicate (0xF000 - 0x0F00) false).length := by
        rw [List.length_replicate]; omega
      have hiff := hget (j - 0x0F00) hb hb2
      rw [hgv] at hiff
      have hrepl : (List.replicate (0xF000 - 0x0F00) false).get
          ⟨j - 0x0F00, hb2⟩ = false := by
        rw [List.get_eq_getElem, List.getElem_replicate]
      rw [hrepl] at hiff
      have hix : 0x0F00 + (j - 0x0F00) = j := by omega
      rw [hix] at hiff
      have := hiff.mp rfl
      rcases this with hfalse | hmem
      · cases hfalse
      · exact hmem

theorem scan_loop_complete (marks : List Bool) :
    ∀ (remaining id r : Nat), id ≤ r → r < id + remaining →
      check_layout_id_used marks r = .ok false →
      (∀ j, id ≤ j → j < r → check_layout_id_used marks j = .ok true) →
      scan_loop marks remaining id = .ok r := by
  intro remaining
  induction remaining with
  | zero =>
    intro id r hr1 hr2 _ _
    omega
  | succ rem ih =>
    intro id r hr1 hr2 hfree hall
    by_cases hid : id = r
    · rw [scan_loop, hid, hfree]
    · have hcid : check_layout_id_used marks id = .ok true :=
        hall id (Nat.le_refl _) (by omega)
      rw [scan_loop, hcid]
      exact ih (id + 1) r (by omega) (by omega) hfree
        (fun j hj1 hj2 => hall j (by omega) hj2)

theorem id3_layouts_key : get_layouts_key idRegistry3 = .ok idLayoutsKey3 := rfl

theorem id3_names : idLayoutsKey3.iter_children_names =
    [str "0f00", str "0f01", str "0f03"] := rfl

theorem id3_child1 : child_layout_id idLayoutsKey3 (str "0f00") =
    .ok (some 0x0F00) := rfl

theorem id3_child2 : child_layout_id idLayoutsKey3 (str "0f01") =
    .ok (some 0x0F01) := rfl

theorem id3_child3 : child_layout_id idLayoutsKey3 (str "0f03") =
    .ok (some 0x0F03) := rfl

theorem mark_ok_set (marks : List Bool) (v : Nat) (h1 : 0x0F00 ≤ v)
    (h2 : v - 0x0F00 < marks.length) :
    mark_layout_id_used marks v = .ok (marks.set (v - 0x0F00) true) := by
  unfold mark_layout_id_used
  rw [if_neg (by omega), if_pos h2]

theorem mark_loop_step (K : RegistryKey) (n : RStr) (ns : List RStr)
    (marks m2 : List Bool) (v : Nat)
    (hc : child_layout_id K n = .ok (some v))
    (hm : mark_layout_id_used marks v = .ok m2) :
    mark_loop K (n :: ns) marks = mark_loop K ns m2 := by
  rw [mark_loop, hc]
  show (match mark_layout_id_used marks v with
    | .ok marks2 => mark_loop K ns marks2
    | .err e => RunResult.err e
    | .panic m => RunResult.panic m) = mark_loop K ns m2
  rw [hm]

theorem check_of_get (marks : List Bool) (id : Nat)
    (hb : id - 0x0F00 < marks.length) :
    check_layout_id_used marks id = .ok (marks.get ⟨id - 0x0F00, hb⟩) := by
  unfold check_layout_id_used
  rw [dif_pos hb]

theorem mark_loop_nil (K : RegistryKey) (marks : List Bool) :
    mark_loop K [] marks = .ok marks := rfl

theorem id3_core : next_layout_id_core idLayoutsKey3 = .ok 0x0F02 := by
  have hL0 : (List.replicate (0xF000 - 0x0F00) false).length = 0xF000 - 0x0F00 :=
    List.length_replicate _ _
  have hL1 : ((List.replicate (0xF000 - 0x0F00) false).set
      (0x0F00 - 0x0F00) true).length = 0xF000 - 0x0F00 := by
    rw [List.length_set, hL0]
  have hL2 : (((List.replicate (0xF000 - 0x0F00) false).set
      (0x0F00 - 0x0F00) true).set (0x0F01 - 0x0F00) true).length =
      0xF000 - 0x0F00 := by
    rw [List.length_set, hL1]
  have hL3 : ((((List.replicate (0xF000 - 0x0F00) false).set
      (0x0F00 - 0x0F00) true).set (0x0F01 - 0x0F00) true).set
      (0x0F03 - 0x0F00) true).length = 0xF000 - 0x0F00 := by
    rw [List.length_set, hL2]
  have s1 := mark_loop_step idLayoutsKey3 (str "0f00") [str "0f01", str "0f03"]
    (List.replicate (0xF000 - 0x0F00) false) _ 0x0F00 id3_child1
    (mark_ok_set _ 0x0F00 (by omega) (by rw [hL0]; omega))
  have s2 := mark_loop_step idLayoutsKey3 (str "0f01") [str "0f03"]
    ((List.replicate (0xF000 - 0x0F00) false).set (0x0F00 - 0x0F00) true) _
    0x0F01 id3_child2 (mark_ok_set _ 0x0F01 (by omega) (by rw [hL1]; omega))
  have s3 := mark_loop_step idLayoutsKey3 (str "0f03") []
    (((List.replicate (0xF000 - 0x0F00) false).set (0x0F00 - 0x0F00) true).set
      (0x0F01 - 0x0F00) true) _
    0x0F03 id3_child3 (mark_ok_set _ 0x0F03 (by omega) (by rw [hL2]; omega))
  have hfree : check_layout_id_used
      ((((List.replicate (0xF000 - 0x0F00) false).set (0x0F00 - 0x0F00)
        true).set (0x0F01 - 0x0F00) true).set (0x0F03 - 0x0F00) true)
      0x0F02 = .ok false := by
    have hb : 0x0F02 - 0x0F00 < ((((List.replicate (0xF000 - 0x0F00)
        false).set (0x0F00 - 0x0F00) true).set (0x0F01 - 0x0F00) true).set
        (0x0F03 - 0x0F00) true).length := by
      rw [hL3]; omega
    rw [check_of_get _ _ hb, List.get_eq_getElem]
    simp only [List.getElem_set, List.getElem_replicate]
    norm_num
  have hall : ∀ j, 0x0F00 ≤ j → j < 0x0F02 → check_layout_id_used
      ((((List.replicate (0xF000 - 0x0F00) false).set (0x0F00 - 0x0F00)
        true).set (0x0F01 - 0x0F00) true).set (0x0F03 - 0x0F00) true)
      j = .ok true := by
    intro j hj1 hj2
    have hb : j - 0x0F00 < ((((List.replicate (0xF000 - 0x0F00)
        false).set (0x0F00 - 0x0F00) true).set (0x0F01 - 0x0F00) true).set
        (0x0F03 - 0x0F00) true).length := by
      rw [hL3]; omega
    rw [check_of_get _ _ hb, List.get_eq_getElem]
    have hj : j = 0x0F00 ∨ j = 0x0F01 := by omega
    rcases hj with hj | hj <;> subst hj <;>
      simp only [List.getElem_set, List.getElem_replicate] <;> norm_num
  have hscan := scan_loop_complete _ (0xF000 - 0x0F00) 0x0F00 0x0F02
    (by omega) (by omega) hfree hall
  rw [next_layout_id_core, id3_names, s1, s2, s3, mark_loop_nil]
  exact hscan


/-- C5.  Next-free-layout-identifier prefers the lowest free slot: with
children holding identifiers `{0x0F00, 0x0F01, 0x0F03}` the procedure
returns `0x0F02`, and in general a successfully returned identifier lies in
the scanned range, collides with no identifier recorded among the enumerated
children, and every smaller identifier in the range is recorded (lowest-free
preference). -/
theorem nextLayoutId_lowest_free :
    get_next_layout_id idRegistry3 = .ok 0x0F02 ∧
    (∀ (layouts : RegistryKey) (id : Nat),
      next_layout_id_core layouts = .ok id →
      0x0F00 ≤ id ∧ id < 0xF000 ∧
      ¬ id ∈ enumerated_layout_ids layouts ∧
      (∀ j, 0x0F00 ≤ j → j < id → j ∈ enumerated_layout_ids layouts)) := by
  constructor
  · unfold get_next_layout_id
    rw [id3_layouts_key]
    exact id3_core
  · exact core_ok_minimal

theorem nextLayoutId_lowest_free_witness :
    0x0F00 ≤ 0x0F02 ∧ 0x0F02 < 0xF000 ∧
    ¬ 0x0F02 ∈ enumerated_layout_ids idLayoutsKey3 ∧
    (∀ j, 0x0F00 ≤ j → j < 0x0F02 →
      j ∈ enumerated_layout_ids idLayoutsKey3) :=
  nextLayoutId_lowest_free.2 idLayoutsKey3 0x0F02 id3_core

theorem toRString_ne_exhaust (e : RegistryError) :
    e.toRString ≠ str "No more layout IDs are available." := by
  cases e with
  | NotFound => intro h; exact absurd h (by decide)
  | AccessDenied => intro h; exact absurd h (by decide)
  | Win32 n =>
    intro h
    have h2 := congrArg List.head? h
    have e1 : ((str "Win32 error: " ++ (Nat.repr n).data) : RStr).head? =
        some 'W' := rfl
    have e2 : (str "No more layout IDs are available.").head? = some 'N' := rfl
    rw [RegistryError.toRString] at h2
    rw [e1, e2] at h2
    exact absurd h2 (by decide)
  | Other s =>
    intro h
    have h2 := congrArg List.head? h
    have e1 : ((str "Error: " ++ s) : RStr).head? = some 'E' := rfl
    have e2 : (str "No more layout IDs are available.").head? = some 'N' := rfl
    rw [RegistryError.toRString] at h2
    rw [e1, e2] at h2
    exact absurd h2 (by decide)

theorem child_err_shape (K : RegistryKey) (n : RStr) (msg : RStr)
    (h : child_layout_id K n = .err msg) :
    ∃ e : RegistryError, msg = e.toRString := by
  unfold child_layout_id at h
  cases hs : RegistryKey.get_subkey K n 0 with
  | error e =>
    rw [hs] at h
    have h2 : RunResult.err (α := Option Nat) e.toRString = .err msg := h
    cases h2
    exact ⟨e, rfl⟩
  | ok child =>
    rw [hs] at h
    have h1 : (match child.try_get_value (some (str "Layout Id")) with
      | .error e => RunResult.err e.toRString
      | .ok none => RunResult.ok none
      | .ok (some v) =>
        match unwrap_str v with
        | .ok s =>
          match from_str_radix16_u16 s with
          | some nn => RunResult.ok (some nn)
          | none => RunResult.panic (str "from_str_radix unwrap failed")
        | .err e => RunResult.err e
        | .panic m => RunResult.panic m) = .err msg := h
    cases ht : child.try_get_value (some (str "Layout Id")) with
    | error e =>
      rw [ht] at h1
      have h2 : RunResult.err (α := Option Nat) e.toRString = .err msg := h1
      cases h2
      exact ⟨e, rfl⟩
    | ok o =>
      rw [ht] at h1
      cases o with
      | none =>
        have h2 : RunResult.ok (α := Option Nat) none = .err msg := h1
        cases h2
      | some v =>
        cases v with
        | String s =>
          have h2 : (match from_str_radix16_u16 s with
            | some nn => RunResult.ok (some nn)
            | none => RunResult.panic (str "from_str_radix unwrap failed")) =
              .err msg := h1
          cases hp : from_str_radix16_u16 s with
          | some nn =>
            rw [hp] at h2
            cases h2
          | none =>
            rw [hp] at h2
            cases h2
        | None =>
          have h2 : RunResult.panic (α := Option Nat)
            (str "unwrap_str: not a string value") = .err msg := h1
          cases h2
        | Binary d =>
          have h2 : RunResult.panic (α := Option Nat)
            (str "unwrap_str: not a string value") = .err msg := h1
          cases h2
        | Dword d =>
          have h2 : RunResult.panic (α := Option Nat)
            (str "unwrap_str: not a string value") = .err msg := h1
          cases h2
        | Qword q =>
          have h2 : RunResult.panic (α := Option Nat)
            (str "unwrap_str: not a string value") = .err msg := h1
          cases h2
        | MultiString ss =>
          have h2 : RunResult.panic (α := Option Nat)
            (str "unwrap_str: not a string value") = .err msg := h1
          cases h2
        | ExpandString s =>
          have h2 : RunResult.panic (α := Option Nat)
            (str "unwrap_str: not a string value") = .err msg := h1
          cases h2

theorem mark_loop_err_shape (K : RegistryKey) (names : List RStr) :
    ∀ (marks : List Bool) (msg : RStr), mark_loop K names marks = .err msg →
      ∃ e : RegistryError, msg = e.toRString := by
  induction names with
  | nil =>
    intro marks msg h
    have h2 : RunResult.ok marks = .err msg := h
    cases h2
  | cons n ns ih =>
    intro marks msg h
    cases hc : child_layout_id K n with
    | err e =>
      rw [mark_loop, hc] at h
      have h2 : RunResult.err (α := List Bool) e = .err msg := h
      cases h2
      exact child_err_shape K n msg hc
    | panic m =>
      rw [mark_loop, hc] at h
      cases h
    | ok o =>
      rw [mark_loop, hc] at h
      cases o with
      | none => exact ih marks msg h
      | some v =>
        have h2 : (match mark_layout_id_used marks v with
          | .ok marks2 => mark_loop K ns marks2
          | .err e => RunResult.err e
          | .panic m => RunResult.panic m) = .err msg := h
        cases hm : mark_layout_id_used marks v with
        | err e => exact absurd hm (mark_ok_never_err marks v e)
        | panic m =>
          rw [hm] at h2
          cases h2
        | ok m2 =>
          rw [hm] at h2
          exact ih m2 msg h2

/-- C3.  The scanned identifier namespace is `0x0F00..0xF000` *exclusive* of
`0xF000`: the marker array has `0xF000 - 0x0F00` slots (no slot for `0xF000`
itself), a successful scan never returns an identifier `≥ 0xF000`, and when
the procedure reports exhaustion from the linear scan, it is because every
identifier of the exclusive range `0x0F00 ≤ j < 0xF000` is recorded among
the enumerated children — the availability of `0xF000` itself is never
consulted, contradicting the claim's inclusive reading. -/
theorem nextLayoutId_range :
    (List.replicate (0xF000 - 0x0F00) false).length = 0xF000 - 0x0F00 ∧
    (∀ (layouts : RegistryKey) (id : Nat),
      next_layout_id_core layouts = .ok id → 0x0F00 ≤ id ∧ id < 0xF000) ∧
    (∀ (layouts : RegistryKey),
      next_layout_id_core layouts =
        .err (str "No more layout IDs are available.") →
      ∀ j, 0x0F00 ≤ j → j < 0xF000 →
        j ∈ enumerated_layout_ids layouts) := by
  refine ⟨List.length_replicate _ _, ?_, ?_⟩
  · intro layouts id h
    obtain ⟨h1, h2, _, _⟩ := core_ok_minimal layouts id h
    exact ⟨h1, h2⟩
  · intro layouts h j hj1 hj2
    rw [next_layout_id_core] at h
    cases hm : mark_loop layouts layouts.iter_children_names
        (List.replicate (0xF000 - 0x0F00) false) with
    | err e =>
      rw [hm] at h
      have h2 : RunResult.err (α := Nat) e =
          .err (str "No more layout IDs are available.") := h
      cases h2
      obtain ⟨e', he'⟩ := mark_loop_err_shape layouts
        layouts.iter_children_names _ _ hm
      exact absurd he'.symm (toRString_ne_exhaust e')
    | panic m =>
      rw [hm] at h
      cases h
    | ok marks =>
      rw [hm] at h
      have hscan : scan_loop marks (0xF000 - 0x0F00) 0x0F00 =
          .err (str "No more layout IDs are available.") := h
      have hcj := scan_loop_err marks _ _ _ hscan j hj1 (by omega)
      obtain ⟨hlen, hget⟩ := mark_loop_invariant layouts
        layouts.iter_children_names _ marks hm
      rw [List.length_replicate] at hlen
      obtain ⟨hb, hgv⟩ := check_ok_elim marks j true hcj
      have hb2 : j - 0x0F00 < (List.replicate (0xF000 - 0x0F00) false).length := by
        rw [List.length_replicate]; omega
      have hiff := hget (j - 0x0F00) hb hb2
      rw [hgv] at hiff
      have hrepl : (List.replicate (0xF000 - 0x0F00) false).get
          ⟨j - 0x0F00, hb2⟩ = false := by
        rw [List.get_eq_getElem, List.getElem_replicate]
      rw [hrepl] at hiff
      have hix : 0x0F00 + (j - 0x0F00) = j := by omega
      rw [hix] at hiff
      rcases hiff.mp rfl with hfalse | hmem
      · cases hfalse
      · exact hmem

theorem nextLayoutId_range_witness :
    0x0F00 ≤ 0x0F02 ∧ 0x0F02 < 0xF000 :=
  nextLayoutId_range.2.1 idLayoutsKey3 0x0F02 id3_core

/-- C9.  Fixed-width integer decode requires the exact byte length: the
32-bit tags require exactly 4 bytes and the 64-bit tag exactly 8; any other
length (e.g. a 3-byte buffer under the little-endian 32-bit tag) is the
malformed-value decode failure; and the two 32-bit tag variants decode the
same 4 bytes with little-endian respectively big-endian byte order. -/
theorem fixedWidth_decode_exact :
    (∀ data : List Nat, data.length ≠ 4 →
      RegistryValueData.from_data REG_DWORD_LITTLE_ENDIAN data =
        .error (str "Invalid data length for REG_DWORD_LITTLE_ENDIAN!")) ∧
    (∀ data : List Nat, data.length ≠ 4 →
      RegistryValueData.from_data REG_DWORD_BIG_ENDIAN data =
        .error (str "Invalid data length for REG_DWORD_BIG_ENDIAN!")) ∧
    (∀ data : List Nat, data.length ≠ 8 →
      RegistryValueData.from_data REG_QWORD_LITTLE_ENDIAN data =
        .error (str "Invalid data length for REG_QWORD_LITTLE_ENDIAN!")) ∧
    RegistryValueData.from_data REG_DWORD_LITTLE_ENDIAN [1, 2, 3] =
      .error (str "Invalid data length for REG_DWORD_LITTLE_ENDIAN!") ∧
    RegistryValueData.from_data REG_DWORD_LITTLE_ENDIAN [1, 2, 3, 4] =
      .ok (.Dword 0x04030201) ∧
    RegistryValueData.from_data REG_DWORD_BIG_ENDIAN [1, 2, 3, 4] =
      .ok (.Dword 0x01020304) := by
  refine ⟨?_, ?_, ?_, by decide, by decide, by decide⟩
  · intro data hlen
    unfold RegistryValueData.from_data
    norm_num [REG_NONE, REG_BINARY, REG_DWORD_LITTLE_ENDIAN,
      REG_DWORD_BIG_ENDIAN, REG_QWORD_LITTLE_ENDIAN, REG_SZ, REG_MULTI_SZ,
      REG_EXPAND_SZ, hlen]
  · intro data hlen
    unfold RegistryValueData.from_data
    norm_num [REG_NONE, REG_BINARY, REG_DWORD_LITTLE_ENDIAN,
      REG_DWORD_BIG_ENDIAN, REG_QWORD_LITTLE_ENDIAN, REG_SZ, REG_MULTI_SZ,
      REG_EXPAND_SZ, hlen]
  · intro data hlen
    unfold RegistryValueData.from_data
    norm_num [REG_NONE, REG_BINARY, REG_DWORD_LITTLE_ENDIAN,
      REG_DWORD_BIG_ENDIAN, REG_QWORD_LITTLE_ENDIAN, REG_SZ, REG_MULTI_SZ,
      REG_EXPAND_SZ, hlen]

theorem fixedWidth_decode_exact_witness :
    RegistryValueData.from_data REG_DWORD_LITTLE_ENDIAN [] =
      .error (str "Invalid data length for REG_DWORD_LITTLE_ENDIAN!") ∧
    RegistryValueData.from_data REG_DWORD_BIG_ENDIAN [7] =
      .error (str "Invalid data length for REG_DWORD_BIG_ENDIAN!") ∧
    RegistryValueData.from_data REG_QWORD_LITTLE_ENDIAN [1, 2, 3, 4] =
      .error (str "Invalid data length for REG_QWORD_LITTLE_ENDIAN!") :=
  ⟨fixedWidth_decode_exact.1 [] (by decide),
   fixedWidth_decode_exact.2.1 [7] (by decide),
   fixedWidth_decode_exact.2.2.1 [1, 2, 3, 4] (by decide)⟩
